import Mathlib

/-!
Verification development for the inspector-cli repository.

We give a shallow embedding of the core services
(`src/services/pdf_service.py`, `src/services/index_service.py`,
`src/services/cache_service.py`, `src/services/agent.py`,
`src/db/models.py`, `src/mcp_server.py`) and prove the documented
properties about them.

Modelling conventions:
* UUIDs (`uuid.uuid4`) are modelled by a monotone counter carried in the
  state (`nextUuid`): each generated id is distinct from every id generated
  before, matching the "collision-probability negligible" reading of uuid4.
* Database sessions are modelled by the committed table contents; a commit
  applies the pending change, a rollback discards it.  `IndexService.delete_index`
  commits on its own (it calls `self.db.commit()`), so its effect survives a
  later rollback.
* Exceptions are modelled with `Except`; an operation that the Python code
  wraps in `try/except` is modelled by explicit outcome flags in an
  environment record (one flag per external call that can raise).
* The vector store is modelled as the set (list) of existing collection ids.
* The scratch image directory `IMAGES_TEMP_DIR` is modelled by the number of
  files it currently holds; `cleanup_temp_images` sets it to zero.
-/

namespace InspectorCLI

/-- One row of the `documents` table (`src/db/models.py`, class `File`).
`file_name` carries a DB unique constraint, `file_path` is `nullable=False`
(no DB unique constraint), `index_id` carries a DB unique constraint and is
`nullable=False` (non-null by construction in this model, since every record
stores a `Nat` there). -/
structure FileRecord where
  id : Nat
  file_name : String
  file_path : String
  file_size : Nat
  file_type : String
  index_id : Nat
  created_at : Nat
  updated_at : Nat
deriving Repr, DecidableEq

/-- Combined persistent state: the relational `documents` table, the vector
store collections, the scratch image directory, and the uuid supply. -/
structure SysState where
  records : List FileRecord
  collections : List Nat
  scratch : Nat
  nextUuid : Nat
deriving Repr, DecidableEq

/-- The input path of `PDFService.load_file`, after `Path` processing:
`abs` models `str(path.absolute())` and `name` models `path.name`. -/
structure PathInput where
  abs : String
  name : String
deriving Repr, DecidableEq

/-- Outcome flags and inputs for one `load_file` call: whether each external
step succeeds, the answer to the `questionary.confirm` re-index prompt, the
reported file size and the current time. -/
structure IngestEnv where
  pathExists : Bool
  isPdf : Bool
  confirmOverwrite : Bool
  deleteOk : Bool
  processOk : Bool
  buildOk : Bool
  commitOk : Bool
  statSize : Nat
  now : Nat
deriving Repr, DecidableEq

/-- The dict returned by `PDFService.load_file` on success. -/
structure LoadResult where
  file_id : Nat
  file_name : String
  file_path : String
  status : String
deriving Repr, DecidableEq

/-- Exceptions that can escape `PDFService.load_file`. -/
inductive IngestError where
  | fileNotFound
  | notPdf
  | providerError
  | dbError
deriving Repr, DecidableEq

/-- The status tags of `PDFService.Status` (`src/services/pdf_service.py`,
lines 39-43). -/
def Status.error : String := "error"

/-- `Status.SUCCESS.value` — the tag returned for a first successful load. -/
def Status.success : String := "success"

/-- `Status.OVERWRITTEN.value`. -/
def Status.overwritten : String := "overwritten"

/-- `Status.ALREADY_EXISTS.value`. -/
def Status.already_exists : String := "already_exists"

/-- The `except` clause of `load_file`: `self.db.rollback()` (pending changes
are discarded — the argument is always the last committed state) followed by
`self.cleanup_temp_images()` (empties the scratch directory). -/
def failCleanup (st : SysState) : SysState :=
  { st with scratch := 0 }

/-- The `existing_file` branch of `load_file` with re-indexing confirmed:
`delete_index` (which commits), then `process_pdf`, `index_nodes` under the
same `index_id`, `cleanup_temp_images`, then the in-place update of
`file_size`/`file_type` (with `updated_at` refreshed by the model's
`onupdate=func.now()`) and commit. -/
def overwriteFlow (env : IngestEnv) (_p : PathInput) (ex : FileRecord) (st : SysState) :
    Except IngestError LoadResult × SysState :=
  if !env.deleteOk then (.error .providerError, failCleanup st)
  else
    let st1 : SysState := { st with collections := st.collections.erase ex.index_id }
    if !env.processOk then (.error .providerError, failCleanup st1)
    else if !env.buildOk then (.error .providerError, failCleanup st1)
    else
      let st2 : SysState :=
        { st1 with collections := ex.index_id :: st1.collections, scratch := 0 }
      if !env.commitOk then (.error .dbError, failCleanup st2)
      else
        let upd : FileRecord → FileRecord := fun r =>
          if r.id = ex.id then
            { r with file_size := env.statSize, file_type := "pdf", updated_at := env.now }
          else r
        (.ok { file_id := ex.id, file_name := ex.file_name, file_path := ex.file_path,
               status := Status.overwritten },
         { st2 with records := st2.records.map upd })

/-- The fresh-path branch of `load_file`: allocate a fresh `index_id`
(`uuid4`), `process_pdf`, `index_nodes`, `cleanup_temp_images`, then insert a
new `File` row (fresh primary key) and commit.  The commit enforces the DB
unique constraints of `src/db/models.py`: `file_name` unique and `index_id`
unique. -/
def createFlow (env : IngestEnv) (p : PathInput) (st : SysState) :
    Except IngestError LoadResult × SysState :=
  let indexId := st.nextUuid
  let st0 : SysState := { st with nextUuid := st.nextUuid + 1 }
  if !env.processOk then (.error .providerError, failCleanup st0)
  else if !env.buildOk then (.error .providerError, failCleanup st0)
  else
    let st1 : SysState :=
      { st0 with collections := indexId :: st0.collections, scratch := 0 }
    let recId := st1.nextUuid
    let newRec : FileRecord :=
      { id := recId, file_name := p.name, file_path := p.abs,
        file_size := env.statSize, file_type := "pdf", index_id := indexId,
        created_at := env.now, updated_at := env.now }
    let st2 : SysState := { st1 with nextUuid := st1.nextUuid + 1 }
    if !env.commitOk then (.error .dbError, failCleanup st2)
    else if st2.records.any (fun r => r.file_name == p.name) then
      (.error .dbError, failCleanup st2)
    else if st2.records.any (fun r => r.index_id == indexId) then
      (.error .dbError, failCleanup st2)
    else
      (.ok { file_id := recId, file_name := newRec.file_name,
             file_path := newRec.file_path, status := Status.success },
       { st2 with records := st2.records ++ [newRec] })

/-- `PDFService.load_file` (`src/services/pdf_service.py`, lines 180-263):
validate the path, look up an existing record by absolute path, then either
return `already_exists` (re-index declined), run the overwrite flow
(re-index confirmed), or run the create flow.  Any exception triggers
`db.rollback()` and `cleanup_temp_images()` before being re-raised. -/
def load_file (env : IngestEnv) (p : PathInput) (st : SysState) :
    Except IngestError LoadResult × SysState :=
  if !env.pathExists then (.error .fileNotFound, failCleanup st)
  else if !env.isPdf then (.error .notPdf, failCleanup st)
  else
    match st.records.find? (fun r => r.file_path == p.abs) with
    | some ex =>
      if !env.confirmOverwrite then
        (.ok { file_id := ex.id, file_name := ex.file_name, file_path := ex.file_path,
               status := Status.already_exists }, st)
      else overwriteFlow env p ex st
    | none => createFlow env p st

/-- `True` when every Document Record's index collection exists and every
collection belongs to some record — the "both present or both absent"
pairing of spec section 7. -/
def consistentB (st : SysState) : Bool :=
  st.records.all (fun r => st.collections.contains r.index_id)
    && st.collections.all (fun c => st.records.any (fun r => r.index_id == c))

/-- The File Registry invariant of the data model: file paths pairwise
distinct, index collection ids pairwise distinct, and all stored ids below
the uuid supply counter. -/
def RegistryInv (st : SysState) : Prop :=
  (st.records.map (fun r => r.file_path)).Nodup ∧
  (st.records.map (fun r => r.index_id)).Nodup ∧
  (∀ r ∈ st.records, r.index_id < st.nextUuid ∧ r.id < st.nextUuid)

/-- States reachable through the File Registry: the empty table (with any
scratch content) and everything `load_file` can produce from there.
`load_file` is the only operation of the repository that writes the
`documents` table (the MCP `delete_file` tool calls a method that does not
exist, see `mcp_delete_file`). -/
inductive Reachable : SysState → Prop where
  | init (s : Nat) : Reachable { records := [], collections := [], scratch := s, nextUuid := 0 }
  | step (env : IngestEnv) (p : PathInput) (st : SysState) :
      Reachable st → Reachable (load_file env p st).2

/-- Sample record: an already-ingested document at `/docs/a.pdf` whose index
collection `1` exists. -/
def sampleRec : FileRecord :=
  { id := 0, file_name := "a.pdf", file_path := "/docs/a.pdf", file_size := 10,
    file_type := "pdf", index_id := 1, created_at := 0, updated_at := 0 }

/-- Sample consistent state holding `sampleRec` and its index collection. -/
def sampleSt : SysState :=
  { records := [sampleRec], collections := [1], scratch := 0, nextUuid := 2 }

/-- The path of `sampleRec`, as seen by `load_file`. -/
def samplePath : PathInput := { abs := "/docs/a.pdf", name := "a.pdf" }

/-- An ingestion environment in which everything succeeds except
`process_pdf`, and the re-index prompt is confirmed. -/
def envProcessFails : IngestEnv :=
  { pathExists := true, isPdf := true, confirmOverwrite := true, deleteOk := true,
    processOk := false, buildOk := true, commitOk := true, statSize := 20, now := 5 }

/-- An ingestion environment in which every step succeeds (prompt declined,
which only matters when a record already exists). -/
def envAllOkDecline : IngestEnv :=
  { pathExists := true, isPdf := true, confirmOverwrite := false, deleteOk := true,
    processOk := true, buildOk := true, commitOk := true, statSize := 20, now := 5 }

/-- A path never ingested before. -/
def freshPath : PathInput := { abs := "/docs/new.pdf", name := "new.pdf" }

/-- An ingestion environment in which every step succeeds and the re-index
prompt is confirmed. -/
def envOverwriteOk : IngestEnv :=
  { pathExists := true, isPdf := true, confirmOverwrite := true, deleteOk := true,
    processOk := true, buildOk := true, commitOk := true, statSize := 30, now := 7 }

end InspectorCLI

namespace InspectorCLI

/-- The sentinel text assigned to an image whose index is absent from a
batch response (`pdf_service.py`, line 106). -/
def missingSentinel : String := "[Analysis missing]"

/-- The sentinel text assigned when a batch analysis call raises
(`pdf_service.py`, line 113). -/
def failedSentinel : String := "[Image analysis failed]"

/-- The `chunked` generator of `analyze_images_batch`
(`range(0, len(iterable), size)` slices), fuelled by the list length so the
definition is structural; `chunked` below supplies the fuel. -/
def chunkedAux (fuel : Nat) (l : List α) (size : Nat) : List (List α) :=
  match fuel, l with
  | 0, _ => []
  | _, [] => []
  | fuel + 1, l => l.take size :: chunkedAux fuel (l.drop size) size

/-- `chunked(iterable, size)` of `analyze_images_batch`. -/
def chunked (l : List α) (size : Nat) : List (List α) :=
  chunkedAux l.length l size

/-- The `batch_results` dict of `analyze_images_batch`: built from the
response's `(image_index, analysis)` pairs (later duplicates win, as in a
Python dict comprehension), then queried with `.get(i + 1, default)`. -/
def batchLookup (pairs : List (Nat × String)) (i : Nat) : Option String :=
  (pairs.reverse.find? (fun q => q.1 == i)).map (fun q => q.2)

/-- The batch loop of `analyze_images_batch`: one provider call per chunk
(`j` is the running batch number); the per-image results of each successful
batch — `batch_results.get(i + 1, "[Analysis missing]")` for the i-th image
of the batch — are accumulated in order; a provider exception aborts the
loop. -/
def runBatches (provider : Nat → Except Unit (List (Nat × String))) :
    Nat → List (List α) → Except Unit (List String)
  | _, [] => .ok []
  | j, b :: bs =>
    match provider j with
    | .error e => .error e
    | .ok pairs =>
      match runBatches provider (j + 1) bs with
      | .error e => .error e
      | .ok rest =>
        .ok (((List.range b.length).map
          (fun i => (batchLookup pairs (i + 1)).getD missingSentinel)) ++ rest)

/-- `PDFService.analyze_images_batch` (`pdf_service.py`, lines 45-113):
empty input short-circuits to `[]`; otherwise the batches are processed in
order inside one `try`, and any exception is caught at the top, replacing
the output for the WHOLE input (not just the failing batch) with the
"analysis failed" sentinel repeated `len(images_data)` times. -/
def analyze_images_batch (l : List α) (batchSize : Nat)
    (provider : Nat → Except Unit (List (Nat × String))) : List String :=
  if l.isEmpty then []
  else
    match runBatches provider 0 (chunked l batchSize) with
    | .ok results => results
    | .error _ => List.replicate l.length failedSentinel

/-- One page of a PDF, as far as `process_pdf` observes it: its extracted
text and how many embedded images it carries. -/
structure Page where
  text : String
  imageCount : Nat
deriving Repr, DecidableEq

/-- A llama-index `Document` node produced by `process_pdf`: text plus the
`page_number` (1-based) and, for image nodes, the `image_index` (1-based)
metadata. -/
structure DocNode where
  text : String
  page_number : Nat
  image_index : Option Nat
deriving Repr, DecidableEq

/-- The per-page text nodes of `process_pdf`. -/
def pageNodes (pages : List Page) : List DocNode :=
  pages.enum.map (fun ip => { text := ip.2.text, page_number := ip.1 + 1, image_index := none })

/-- The `images_to_process` list of `process_pdf`: one `(page_number,
image_index)` pair per embedded image, both 1-based, in page order. -/
def imageMetas (pages : List Page) : List (Nat × Nat) :=
  pages.enum.flatMap (fun ip => (List.range ip.2.imageCount).map (fun k => (ip.1 + 1, k + 1)))

/-- `PDFService.process_pdf` (`pdf_service.py`, lines 116-164): one text
node per page, then — when image analysis is enabled and images exist — a
batch analysis (default batch size 20) whose results are zipped back onto
the images as extra nodes. -/
def process_pdf (pages : List Page) (includeImages : Bool)
    (provider : Nat → Except Unit (List (Nat × String))) : List DocNode :=
  let nodes := pageNodes pages
  let imgs := if includeImages then imageMetas pages else []
  if imgs.isEmpty then nodes
  else
    nodes ++ (imgs.zip (analyze_images_batch imgs 20 provider)).map
      (fun mt => { text := mt.2, page_number := mt.1.1, image_index := some mt.1.2 })

/-- A provider whose first batch succeeds (analysing the single image of
the batch as "a") and whose second batch raises. -/
def c6Provider : Nat → Except Unit (List (Nat × String)) :=
  fun j => if j = 0 then .ok [(1, "a")] else .error ()


/-! A Python value as it can travel through `CacheService`: `None`, bools,
ints, floats, strings, lists and string-keyed dicts.  A float is carried
opaquely by its textual form (`json.loads` builds it from exactly the
number span or constant token it consumed, and `repr`/`json.dumps` print a
float as such a span), since Lean has no IEEE doubles; the cache's own
writers (the chat histories of `agent.py`) never produce floats, and the
float-free fragment is singled out by `noFloatV` below.  `PyValues` and
`PyFields` are the list/dict spines. -/
mutual
inductive PyValue where
  | noneV
  | boolV (b : Bool)
  | intV (n : Int)
  | floatV (f : String)
  | strV (s : String)
  | listV (vs : PyValues)
  | dictV (kvs : PyFields)
deriving DecidableEq, Repr
inductive PyValues where
  | nil
  | cons (v : PyValue) (vs : PyValues)
deriving DecidableEq, Repr
inductive PyFields where
  | nil
  | cons (k : String) (v : PyValue) (kvs : PyFields)
deriving DecidableEq, Repr
end

/-- The opening brace character. -/
def lbrace : Char := Char.ofNat 123

/-- The closing brace character. -/
def rbrace : Char := Char.ofNat 125

/-- The characters `json.dumps` leaves unescaped (its `ensure_ascii`
encoder escapes `"` and `\` and everything outside space..tilde). -/
def printableChar (c : Char) : Bool := 32 ≤ c.toNat && c.toNat ≤ 126

/-- The lowercase hexadecimal digit for a value below 16. -/
def hexDigitChar : Nat → Char
  | 0 => '0' | 1 => '1' | 2 => '2' | 3 => '3' | 4 => '4'
  | 5 => '5' | 6 => '6' | 7 => '7' | 8 => '8' | 9 => '9'
  | 10 => 'a' | 11 => 'b' | 12 => 'c' | 13 => 'd' | 14 => 'e' | _ => 'f'

/-- The four hex digits of a `\uXXXX` escape. -/
def hex4 (n : Nat) : List Char :=
  [hexDigitChar (n / 4096 % 16), hexDigitChar (n / 256 % 16),
   hexDigitChar (n / 16 % 16), hexDigitChar (n % 16)]

/-- A hexadecimal digit, upper- or lowercase (as `json.loads` accepts). -/
def isHexDigit (c : Char) : Bool :=
  c.isDigit || ('a' ≤ c && c ≤ 'f') || ('A' ≤ c && c ≤ 'F')

/-- The value of a hexadecimal digit. -/
def hexVal (c : Char) : Nat :=
  if c.isDigit then c.toNat - 48
  else if 'a' ≤ c && c ≤ 'f' then c.toNat - 87
  else c.toNat - 55

/-- `json.dumps` escaping of one character, with the default
`ensure_ascii=True`: `\"` and `\\`, the short escapes `\b \f \n \r \t`,
printable ASCII verbatim, `\uXXXX` for every other BMP character and a
`\uXXXX\uXXXX` surrogate pair for astral characters. -/
def escapeChar (c : Char) : List Char :=
  if c = '"' then ['\\', '"']
  else if c = '\\' then ['\\', '\\']
  else if c = Char.ofNat 8 then ['\\', 'b']
  else if c = Char.ofNat 12 then ['\\', 'f']
  else if c = '\n' then ['\\', 'n']
  else if c = '\r' then ['\\', 'r']
  else if c = '\t' then ['\\', 't']
  else if printableChar c then [c]
  else if c.toNat < 65536 then '\\' :: 'u' :: hex4 c.toNat
  else
    ('\\' :: 'u' :: hex4 (55296 + (c.toNat - 65536) / 1024)) ++
      ('\\' :: 'u' :: hex4 (56320 + (c.toNat - 65536) % 1024))

/-- `json.dumps` string escaping, character by character. -/
def escapeChars : List Char → List Char
  | [] => []
  | c :: cs => escapeChar c ++ escapeChars cs

/-- The decimal digit characters. -/
def digitChar : Nat → Char
  | 0 => '0' | 1 => '1' | 2 => '2' | 3 => '3' | 4 => '4'
  | 5 => '5' | 6 => '6' | 7 => '7' | 8 => '8' | _ => '9'

/-- The numeric value of a digit character. -/
def digitVal (c : Char) : Nat := c.toNat - 48

/-- Decimal rendering of a natural number (fuelled; `natChars` supplies
fuel, one unit per digit, `n + 1` being always enough). -/
def natCharsAux : Nat → Nat → List Char
  | 0, _ => []
  | fuel + 1, n =>
    if n < 10 then [digitChar n]
    else natCharsAux fuel (n / 10) ++ [digitChar (n % 10)]

/-- Decimal rendering of a natural number, as `str` would print it. -/
def natChars (n : Nat) : List Char := natCharsAux (n + 1) n

/-- Decimal rendering of an integer, as `str`/`json.dumps` print it. -/
def intChars (n : Int) : List Char :=
  if n < 0 then '-' :: natChars n.natAbs else natChars n.natAbs

/-- The numeric value of a digit string (most significant first). -/
def charsVal (cs : List Char) : Nat :=
  cs.foldl (fun a c => 10 * a + digitVal c) 0

/-- Split a leading run of digits from the rest. -/
def spanDigits : List Char → List Char × List Char
  | [] => ([], [])
  | c :: cs =>
    if c.isDigit then
      let r := spanDigits cs
      (c :: r.1, r.2)
    else ([], c :: cs)

/-- The integer part of a JSON number (`json.loads`' `NUMBER_RE`):
a single `0`, or a nonzero digit followed by a digit run — leading zeros
are a parse error (the `0` ends the integer part and whatever follows is
judged by the surrounding grammar). -/
def parseIntPart : List Char → Option (List Char × List Char)
  | [] => Option.none
  | c :: cs =>
    if c = '0' then some (['0'], cs)
    else if c.isDigit then
      let r := spanDigits cs
      some (c :: r.1, r.2)
    else Option.none

/-- The optional fraction of a JSON number: absent, or `.` followed by at
least one digit (a bare `.` is a parse error). -/
def parseFrac : List Char → Option (List Char × List Char)
  | [] => some ([], [])
  | c :: cs =>
    if c = '.' then
      match spanDigits cs with
      | ([], _) => Option.none
      | (ds, rest) => some ('.' :: ds, rest)
    else some ([], c :: cs)

/-- The optional exponent of a JSON number: absent, or `e`/`E`, an
optional sign, and at least one digit. -/
def parseExp : List Char → Option (List Char × List Char)
  | [] => some ([], [])
  | c :: cs =>
    if c = 'e' ∨ c = 'E' then
      match cs with
      | [] => Option.none
      | s :: cs2 =>
        if s = '+' ∨ s = '-' then
          match spanDigits cs2 with
          | ([], _) => Option.none
          | (ds, rest) => some (c :: s :: ds, rest)
        else
          match spanDigits cs with
          | ([], _) => Option.none
          | (ds, rest) => some (c :: ds, rest)
    else some ([], c :: cs)

/-- A JSON number after its optional minus sign: integer part, optional
fraction, optional exponent; an `int` when both are absent, a `float`
(carried by its textual span, as Python carries the IEEE double
`float(span)`) otherwise. -/
def parseUnsignedNum (neg : Bool) (cs : List Char) : Option (PyValue × List Char) :=
  match parseIntPart cs with
  | Option.none => Option.none
  | some (ip, r1) =>
    match parseFrac r1 with
    | Option.none => Option.none
    | some (fp, r2) =>
      match parseExp r2 with
      | Option.none => Option.none
      | some (ep, r3) =>
        if fp.isEmpty && ep.isEmpty then
          some (.intV (if neg then -(charsVal ip : Int) else (charsVal ip : Int)), r3)
        else
          some (.floatV ⟨(if neg then ['-'] else []) ++ ip ++ fp ++ ep⟩, r3)

/-- A JSON number with its optional minus sign. -/
def parseNumber : List Char → Option (PyValue × List Char)
  | [] => Option.none
  | c :: cs =>
    if c = '-' then parseUnsignedNum true cs else parseUnsignedNum false (c :: cs)

/-- The whitespace characters `json.loads` skips. -/
def isWsChar (c : Char) : Bool := c = ' ' || c = '\t' || c = '\n' || c = '\r'

/-- Drop leading JSON whitespace. -/
def skipWs : List Char → List Char
  | [] => []
  | c :: cs => if isWsChar c then skipWs cs else c :: cs

/-- The value of four hex digits. -/
def hv4 (h1 h2 h3 h4 : Char) : Nat :=
  hexVal h1 * 4096 + hexVal h2 * 256 + hexVal h3 * 16 + hexVal h4

/-- Recognize a `\uXXXX` escape denoting a low surrogate at the head of
the input (what `json.loads` peeks for right after a high surrogate),
returning its value and the rest. -/
def lowSurEscape? : List Char → Option (Nat × List Char)
  | b1 :: u1 :: g1 :: g2 :: g3 :: g4 :: cs4 =>
    if b1 = '\\' ∧ u1 = 'u' ∧
        (isHexDigit g1 && isHexDigit g2 && isHexDigit g3 && isHexDigit g4) = true ∧
        56320 ≤ hv4 g1 g2 g3 g4 ∧ hv4 g1 g2 g3 g4 ≤ 57343 then
      some (hv4 g1 g2 g3 g4, cs4)
    else Option.none
  | [] => Option.none
  | [_] => Option.none
  | [_, _] => Option.none
  | [_, _, _] => Option.none
  | [_, _, _, _] => Option.none
  | [_, _, _, _, _] => Option.none

/-- Decode one backslash escape (the input starts right after the
backslash): the two-character escapes, or `\uXXXX` with four hex digits —
a high surrogate immediately followed by a low-surrogate escape decodes to
the astral character; python keeps a lone surrogate as a code unit its
`str` can hold but a Lean `Char` cannot, modelled as NUL.  Any other
escape is an error. -/
def unescape1 : List Char → Option (Char × List Char)
  | [] => Option.none
  | e :: cs2 =>
    if e = '"' ∨ e = '\\' ∨ e = '/' then some (e, cs2)
    else if e = 'b' then some (Char.ofNat 8, cs2)
    else if e = 'f' then some (Char.ofNat 12, cs2)
    else if e = 'n' then some ('\n', cs2)
    else if e = 'r' then some ('\r', cs2)
    else if e = 't' then some ('\t', cs2)
    else if e = 'u' then
      match cs2 with
      | h1 :: h2 :: h3 :: h4 :: cs3 =>
        if isHexDigit h1 && isHexDigit h2 && isHexDigit h3 && isHexDigit h4 then
          if 55296 ≤ hv4 h1 h2 h3 h4 ∧ hv4 h1 h2 h3 h4 ≤ 56319 then
            match lowSurEscape? cs3 with
            | some (m, cs4) =>
              some (Char.ofNat (65536 + (hv4 h1 h2 h3 h4 - 55296) * 1024 + (m - 56320)), cs4)
            | Option.none => some (Char.ofNat (hv4 h1 h2 h3 h4), cs3)
          else some (Char.ofNat (hv4 h1 h2 h3 h4), cs3)
        else Option.none
      | [] => Option.none
      | [_] => Option.none
      | [_, _] => Option.none
      | [_, _, _] => Option.none
    else Option.none

/-- Parse a JSON string body (after the opening quote) up to and including
the closing quote, as `json.loads` does in its default strict mode: a
quote closes, a backslash must start a valid escape (`unescape1`), raw
characters below `0x20` are an error, and everything else stands for
itself.  (Fuelled — one unit per decoded character, so input length
suffices; `parseStr` supplies it.) -/
def parseStrBody : Nat → List Char → Option (List Char × List Char)
  | 0, _ => Option.none
  | _ + 1, [] => Option.none
  | fuel + 1, c :: cs =>
    if c = '"' then some ([], cs)
    else if c = '\\' then
      match unescape1 cs with
      | some (ch, cs2) =>
        match parseStrBody fuel cs2 with
        | some (s, r) => some (ch :: s, r)
        | Option.none => Option.none
      | Option.none => Option.none
    else if 32 ≤ c.toNat then
      match parseStrBody fuel cs with
      | some (s, r) => some (c :: s, r)
      | Option.none => Option.none
    else Option.none

/-- `parseStrBody` at its standard fuel (enough for its whole input). -/
def parseStr (cs : List Char) : Option (List Char × List Char) :=
  parseStrBody (cs.length + 1) cs

/-- A dumped JSON string: quote, escaped content, quote. -/
def dumpKey (k : String) : List Char := '"' :: escapeChars k.data ++ ['"']

/-! `json.dumps` with its default separators (", " between items, ": "
after keys), restricted to this model's value domain. -/
mutual
def dumpV : PyValue → List Char
  | .noneV => ['n', 'u', 'l', 'l']
  | .boolV true => ['t', 'r', 'u', 'e']
  | .boolV false => ['f', 'a', 'l', 's', 'e']
  | .intV n => intChars n
  | .floatV f => f.data
  | .strV s => dumpKey s
  | .listV .nil => ['[', ']']
  | .listV (.cons v vs) => '[' :: (dumpV v ++ dumpListTail vs) ++ [']']
  | .dictV .nil => [lbrace, rbrace]
  | .dictV (.cons k v kvs) =>
      lbrace :: (dumpKey k ++ ':' :: ' ' :: dumpV v ++ dumpDictTail kvs) ++ [rbrace]
def dumpListTail : PyValues → List Char
  | .nil => []
  | .cons v vs => ',' :: ' ' :: dumpV v ++ dumpListTail vs
def dumpDictTail : PyFields → List Char
  | .nil => []
  | .cons k v kvs => ',' :: ' ' :: dumpKey k ++ ':' :: ' ' :: dumpV v ++ dumpDictTail kvs
end

/-- `json.dumps` as a string-valued function. -/
def json_dumps (v : PyValue) : String := ⟨dumpV v⟩

/-- A list that cannot extend a preceding number span: empty, or starting
with none of digit, `.`, `e`, `E` — the right context for a rendered
number, so that the span ends exactly where it should. -/
def notNumExt (B : List Char) : Prop :=
  ∀ c t, B = c :: t → c.isDigit = false ∧ c ≠ '.' ∧ c ≠ 'e' ∧ c ≠ 'E'

/-! The float-free fragment of the value domain: what the cache's writers
(all-string chat-history dicts) actually produce, and the fragment on
which `json.dumps` is a two-sided inverse of `json.loads` below. -/
mutual
def noFloatV : PyValue → Bool
  | .floatV _ => false
  | .listV vs => noFloatL vs
  | .dictV kvs => noFloatF kvs
  | _ => true
def noFloatL : PyValues → Bool
  | .nil => true
  | .cons v vs => noFloatV v && noFloatL vs
def noFloatF : PyFields → Bool
  | .nil => true
  | .cons _ v kvs => noFloatV v && noFloatF kvs
end

/-! Recursive-descent `json.loads` (fuelled: every nesting step consumes
one fuel unit; `loadsChars` supplies input-length fuel).  `parseVal`
parses one value, `parseListTail` the rest of a list after an element,
`parseDictFirst` a dict body after the opening brace, `parseDictTail` the
rest of a dict after a pair. -/
mutual
def parseVal : Nat → List Char → Option (PyValue × List Char)
  | 0, _ => Option.none
  | fuel + 1, cs =>
    match skipWs cs with
    | [] => Option.none
    | c :: rest =>
      if c = 'n' then
        if rest.take 3 = ['u', 'l', 'l'] then some (.noneV, rest.drop 3) else Option.none
      else if c = 't' then
        if rest.take 3 = ['r', 'u', 'e'] then some (.boolV true, rest.drop 3)
        else Option.none
      else if c = 'f' then
        if rest.take 4 = ['a', 'l', 's', 'e'] then some (.boolV false, rest.drop 4)
        else Option.none
      else if c = '"' then
        match parseStr rest with
        | some (s, r) => some (.strV ⟨s⟩, r)
        | Option.none => Option.none
      else if c = '[' then
        match skipWs rest with
        | [] => Option.none
        | c2 :: r2 =>
          if c2 = ']' then some (.listV .nil, r2)
          else
            match parseVal fuel (c2 :: r2) with
            | some (v, r3) =>
              (match parseListTail fuel r3 with
               | some (vs, r4) => some (.listV (.cons v vs), r4)
               | Option.none => Option.none)
            | Option.none => Option.none
      else if c = lbrace then parseDictFirst fuel rest
      else if c = 'N' then
        if rest.take 2 = ['a', 'N'] then some (.floatV "NaN", rest.drop 2)
        else Option.none
      else if c = 'I' then
        if rest.take 7 = ['n', 'f', 'i', 'n', 'i', 't', 'y'] then
          some (.floatV "Infinity", rest.drop 7)
        else Option.none
      else if c = '-' then
        if rest.take 8 = ['I', 'n', 'f', 'i', 'n', 'i', 't', 'y'] then
          some (.floatV "-Infinity", rest.drop 8)
        else parseNumber ('-' :: rest)
      else if c.isDigit then parseNumber (c :: rest)
      else Option.none
def parseListTail : Nat → List Char → Option (PyValues × List Char)
  | 0, _ => Option.none
  | fuel + 1, cs =>
    match skipWs cs with
    | [] => Option.none
    | c :: rest =>
      if c = ']' then some (.nil, rest)
      else if c = ',' then
        match parseVal fuel rest with
        | some (v, r2) =>
          (match parseListTail fuel r2 with
           | some (vs, r3) => some (.cons v vs, r3)
           | Option.none => Option.none)
        | Option.none => Option.none
      else Option.none
def parseDictFirst : Nat → List Char → Option (PyValue × List Char)
  | 0, _ => Option.none
  | fuel + 1, cs =>
    match skipWs cs with
    | [] => Option.none
    | c :: rest =>
      if c = rbrace then some (.dictV .nil, rest)
      else if c = '"' then
        match parseStr rest with
        | some (k, r2) =>
          (match skipWs r2 with
           | ':' :: r3 =>
             (match parseVal fuel r3 with
              | some (v, r4) =>
                (match parseDictTail fuel r4 with
                 | some (kvs, r5) => some (.dictV (.cons ⟨k⟩ v kvs), r5)
                 | Option.none => Option.none)
              | Option.none => Option.none)
           | _ => Option.none)
        | Option.none => Option.none
      else Option.none
def parseDictTail : Nat → List Char → Option (PyFields × List Char)
  | 0, _ => Option.none
  | fuel + 1, cs =>
    match skipWs cs with
    | [] => Option.none
    | c :: rest =>
      if c = rbrace then some (.nil, rest)
      else if c = ',' then
        match skipWs rest with
        | '"' :: r2 =>
          (match parseStr r2 with
           | some (k, r3) =>
             (match skipWs r3 with
              | ':' :: r4 =>
                (match parseVal fuel r4 with
                 | some (v, r5) =>
                   (match parseDictTail fuel r5 with
                    | some (kvs, r6) => some (.cons ⟨k⟩ v kvs, r6)
                    | Option.none => Option.none)
                 | Option.none => Option.none)
              | _ => Option.none)
           | Option.none => Option.none)
        | _ => Option.none
      else Option.none
end

/-- Full-input `json.loads` on character lists: parse one value, then allow
only trailing whitespace. -/
def loadsChars (cs : List Char) : Option PyValue :=
  match parseVal (cs.length + 1) cs with
  | some (v, rest) => if (skipWs rest).isEmpty then some v else Option.none
  | Option.none => Option.none

/-- `json.loads` on strings (`None` result modelling a `ValueError`). -/
def json_loads (s : String) : Option PyValue := loadsChars s.data

/-- `CacheService._try_json` (`cache_service.py`, lines 85-90): try
`json.loads`, return the raw string on failure. -/
def tryJson (s : String) : PyValue :=
  match json_loads s with
  | some v => v
  | Option.none => .strV s


/-- The redis backing store: entries `(key, stored string, ttl)`; a set
replaces any previous entry for the key. -/
def RedisStore : Type := List (String × String × Nat)

/-- Look up the stored string for a key. -/
def storeGet (store : RedisStore) (k : String) : Option String :=
  (List.find? (fun e => e.1 == k) store).map (fun e => e.2.1)

/-- Look up the stored string and ttl for a key. -/
def storeFind? (store : RedisStore) (k : String) : Option (String × Nat) :=
  (List.find? (fun e => e.1 == k) store).map (fun e => e.2)

/-- `setex`: (re)bind a key to a value with a ttl. -/
def storeSet (store : RedisStore) (k v : String) (ttl : Nat) : RedisStore :=
  (k, v, ttl) :: List.filter (fun e => !(e.1 == k)) store

/-- `CacheService` (`cache_service.py`): the only state the service itself
holds is whether `__init__`'s `ping()` succeeded; on failure
`self.redis_client` is set to `None` (modelled by `false`) once, at
construction. -/
structure CacheService where
  redis_client : Bool
deriving Repr, DecidableEq

/-- `CacheService.__init__`: probe the backend once; a failed ping leaves
the client `None` and every later operation degraded. -/
def CacheService.init (reachableAtConstruction : Bool) : CacheService :=
  { redis_client := reachableAtConstruction }

/-- The value serialization performed on the way into redis:
`CacheService.set` JSON-encodes dicts and lists; strings pass through;
redis-py itself encodes ints and floats as their decimal text (a float's
textual form being exactly what `floatV` carries) and rejects `bool` and
`None` payloads with a `DataError` (caught by `set`, which returns
`False`). -/
def serializeForSet : PyValue → Option String
  | .dictV kvs => some (json_dumps (.dictV kvs))
  | .listV vs => some (json_dumps (.listV vs))
  | .strV s => some s
  | .intV n => some ⟨intChars n⟩
  | .floatV f => some f
  | .boolV _ => Option.none
  | .noneV => Option.none

/-- `CacheService.get` (lines 35-42): degraded mode (`require_redis`)
returns `None` without touching the backend; a backend error (modelled by
`backendUp = false`) is caught and returns `None`; otherwise the stored
string (or `None` when absent) goes through `_try_json`.  A Python `None`
result is `PyValue.noneV`. -/
def cache_get (svc : CacheService) (backendUp : Bool) (store : RedisStore)
    (key : String) : PyValue :=
  if !svc.redis_client then .noneV
  else if !backendUp then .noneV
  else
    match storeGet store key with
    | Option.none => .noneV
    | some s => tryJson s

/-- `CacheService.set` (lines 44-54): degraded mode returns `False`;
`json.dumps` for dicts/lists; `setex` with the ttl (default 3600); any
exception (backend down, or redis-py rejecting the value type) is caught
and returns `False`. -/
def cache_set (svc : CacheService) (backendUp : Bool) (store : RedisStore)
    (key : String) (value : PyValue) (ttl : Nat) : Bool × RedisStore :=
  if !svc.redis_client then (false, store)
  else if !backendUp then (false, store)
  else
    match serializeForSet value with
    | Option.none => (false, store)
    | some s => (true, storeSet store key s ttl)

/-- `CacheService.delete` (lines 56-63). -/
def cache_delete (svc : CacheService) (backendUp : Bool) (store : RedisStore)
    (key : String) : Bool × RedisStore :=
  if !svc.redis_client then (false, store)
  else if !backendUp then (false, store)
  else (true, List.filter (fun e => !(e.1 == key)) store)

/-- `CacheService.clear_pattern` (lines 65-73): count and delete the keys
matching a pattern (the redis glob match is abstracted as a predicate);
degraded mode and backend errors return 0. -/
def clear_pattern (svc : CacheService) (backendUp : Bool) (store : RedisStore)
    (patMatches : String → Bool) : Nat × RedisStore :=
  if !svc.redis_client then (0, store)
  else if !backendUp then (0, store)
  else
    let ks := List.filter (fun e => patMatches e.1) store
    if ks.isEmpty then (0, store)
    else (ks.length, List.filter (fun e => !(patMatches e.1)) store)

/-- One chat turn as `InspectorAgent` records it: a role-tagged message
with an `isoformat` timestamp. -/
structure Turn where
  role : String
  content : String
  timestamp : String
deriving Repr, DecidableEq

/-- A history entry as stored in the cache: the dict
`{"role": ..., "content": ..., "timestamp": ...}`. -/
def turnToPy (t : Turn) : PyValue :=
  .dictV (.cons "role" (.strV t.role)
    (.cons "content" (.strV t.content)
      (.cons "timestamp" (.strV t.timestamp) .nil)))

/-- A chat history as stored in the cache: the JSON list of turn dicts. -/
def turnsToPyValues : List Turn → PyValues
  | [] => .nil
  | t :: ts => .cons (turnToPy t) (turnsToPyValues ts)

/-- Spine walk for `pyToTurns`: each well-formed turn dict contributes a
turn; anything else contributes nothing. -/
def pyValuesToTurns : PyValues → List Turn
  | .nil => []
  | .cons (.dictV (.cons "role" (.strV r)
      (.cons "content" (.strV c) (.cons "timestamp" (.strV ts) .nil)))) rest =>
    { role := r, content := c, timestamp := ts } :: pyValuesToTurns rest
  | .cons _ rest => pyValuesToTurns rest

/-- Read a history back out of a cached value: the inverse of
`turnsToPyValues` on well-formed histories (`None`/absent gives the empty
history, as `_load_chat_history`'s `history if history else []` does). -/
def pyToTurns : PyValue → List Turn
  | .listV vs => pyValuesToTurns vs
  | _ => []

/-- `InspectorAgent`'s state: the process-local `file_sessions` map from
file id to the session's in-memory history (the chat engine handle is an
external capability and carries no further observable state), plus the
cache store the service writes through. -/
structure AgentState where
  file_sessions : List (Nat × List Turn)
  cacheStore : RedisStore

/-- Outcome flags and inputs for one `InspectorAgent.query` call: whether
the backend is reachable for this call's cache I/O, whether
`load_index` succeeds, whether `chat` succeeds, the generated answer and
the two `datetime.now().isoformat()` readings. -/
structure AgentEnv where
  backendUp : Bool
  loadIndexOk : Bool
  chatOk : Bool
  answer : String
  nowUser : String
  nowAssistant : String

/-- `InspectorAgent._get_history_key`. -/
def historyKey (fid : Nat) : String := "agent:history:" ++ toString fid

/-- `InspectorAgent._load_chat_history`: cache get, parsed history or
empty. -/
def load_chat_history (svc : CacheService) (backendUp : Bool)
    (store : RedisStore) (fid : Nat) : List Turn :=
  pyToTurns (cache_get svc backendUp store (historyKey fid))

/-- The in-memory history the next `query` for `fid` will operate on: the
session's history when a session exists, otherwise the one that session
creation would load from the cache. -/
def effectiveHistory (svc : CacheService) (backendUp : Bool) (st : AgentState)
    (fid : Nat) : List Turn :=
  match List.find? (fun e => e.1 == fid) st.file_sessions with
  | some e => e.2
  | Option.none => load_chat_history svc backendUp st.cacheStore fid

/-- `InspectorAgent.query` (`agent.py`, lines 62-93):
`_get_or_create_session` (loading the index and the cached history on first
access — a `load_index` failure re-raises with nothing recorded), then
`chat`; on success the user turn and the assistant turn are appended, the
session updated, and the full history saved through `CacheService.set`
with ttl 7200; on failure the exception re-raises with the history — in
memory and in the cache — untouched. -/
def agent_query (svc : CacheService) (env : AgentEnv) (question : String)
    (fid : Nat) (st : AgentState) : Except Unit (String × Bool) × AgentState :=
  let sessions :=
    match List.find? (fun e => e.1 == fid) st.file_sessions with
    | some _ => some st.file_sessions
    | Option.none =>
      if !env.loadIndexOk then Option.none
      else some ((fid, load_chat_history svc env.backendUp st.cacheStore fid)
        :: st.file_sessions)
  match sessions with
  | Option.none => (.error (), st)
  | some sess =>
    let st1 : AgentState := { st with file_sessions := sess }
    if !env.chatOk then (.error (), st1)
    else
      let hist := effectiveHistory svc env.backendUp st fid
      let newHist := hist ++
        [{ role := "user", content := question, timestamp := env.nowUser },
         { role := "assistant", content := env.answer, timestamp := env.nowAssistant }]
      let st2 : AgentState :=
        { st1 with file_sessions :=
            List.map (fun e => if e.1 == fid then (fid, newHist) else e) st1.file_sessions }
      let saved := cache_set svc env.backendUp st2.cacheStore (historyKey fid)
        (.listV (turnsToPyValues newHist)) 7200
      (.ok (env.answer, false), { st2 with cacheStore := saved.2 })

/-- The methods the `PDFService` class actually defines
(`pdf_service.py`): there is no `delete_file`. -/
def pdfServiceMethods : List String :=
  ["analyze_images_batch", "process_pdf", "cleanup_temp_images", "load_file",
   "list_files", "get_file"]

/-- The parameters of `PDFService.load_file` besides `self`
(`pdf_service.py`, line 180): only `file_path` — there is no
`interactive` parameter. -/
def load_fileParams : List String := ["file_path"]

/-- Python call binding: `nPositional` positional arguments fill the first
parameters; every keyword argument must name one of the remaining
parameters, else the call raises `TypeError` before the body runs. -/
def kwargsBindOk (params : List String) (nPositional : Nat)
    (kwargs : List String) : Bool :=
  decide (nPositional ≤ params.length) &&
    kwargs.all (fun k => (params.drop nPositional).contains k)

/-- A response of the MCP `handle_call_tool` handler: either normal text
or the error text produced by a guard clause or by the handler's
`except` wrapper. -/
inductive McpReply where
  | toolOk (msg : String)
  | toolError (msg : String)
deriving Repr, DecidableEq

/-- The `load_pdf` branch of `handle_call_tool` (`mcp_server.py`, lines
152-171): a missing argument is reported; otherwise the handler calls
`file_service.load_file(file_path, interactive=False)` — Python binds one
positional argument and the `interactive` keyword against
`load_file`'s parameters, raising `TypeError` when the keyword is unknown,
which the handler's `except` turns into an error response with no work
done. -/
def mcp_load_pdf (env : IngestEnv) (arg : Option PathInput) (st : SysState) :
    McpReply × SysState :=
  match arg with
  | Option.none => (.toolError "Error: file_path is required", st)
  | some p =>
    if kwargsBindOk load_fileParams 1 ["interactive"] then
      match load_file env p st with
      | (.ok r, st2) => (.toolOk r.status, st2)
      | (.error _, st2) => (.toolError "Error executing tool", st2)
    else (.toolError "Error executing tool", st)

/-- The `delete_file` branch of `handle_call_tool` (`mcp_server.py`, lines
223-238): a missing argument is reported; otherwise the handler calls
`file_service.delete_file(file_id)` — the attribute lookup on
`PDFService` raises `AttributeError` when the class defines no such
method, which the handler's `except` turns into an error response with no
work done.  (The branch that would run if the method existed is
unreachable.) -/
def mcp_delete_file (arg : Option Nat) (st : SysState) : McpReply × SysState :=
  match arg with
  | Option.none => (.toolError "Error: file_id is required", st)
  | some _ =>
    if pdfServiceMethods.contains "delete_file" then (.toolOk "deleted", st)
    else (.toolError "Error executing tool", st)


/-! Parse depth: the recursion depth `parseVal` needs to re-read a dumped
value (each parser call consumes one fuel unit before delegating). -/
mutual
def depthV : PyValue → Nat
  | .noneV => 1
  | .boolV _ => 1
  | .intV _ => 1
  | .floatV _ => 1
  | .strV _ => 1
  | .listV .nil => 1
  | .listV (.cons v vs) => 1 + max (depthV v) (depthL vs)
  | .dictV .nil => 2
  | .dictV (.cons _ v kvs) => 2 + max (depthV v) (depthF kvs)
def depthL : PyValues → Nat
  | .nil => 1
  | .cons v vs => 1 + max (depthV v) (depthL vs)
def depthF : PyFields → Nat
  | .nil => 1
  | .cons _ v kvs => 1 + max (depthV v) (depthF kvs)
end

/-- A live agent environment for the `c7` witness run. -/
def c7Env : AgentEnv :=
  { backendUp := true, loadIndexOk := true, chatOk := true, answer := "ans",
    nowUser := "t1", nowAssistant := "t2" }

/-- A fresh agent state (no sessions, empty cache) for the witness run. -/
def c7St : AgentState := { file_sessions := [], cacheStore := [] }

/-- Helper: in a record list with pairwise-distinct file paths, a present
path matches exactly one record. -/
theorem filter_path_length_one (l : List FileRecord) (a : String)
    (hn : (l.map (fun r => r.file_path)).Nodup)
    (hx : ∃ r ∈ l, r.file_path = a) :
    (l.filter (fun r => r.file_path == a)).length = 1 := by
  induction l with
  | nil => simp at hx
  | cons r t ih =>
    simp only [List.map_cons, List.nodup_cons] at hn
    by_cases hr : r.file_path = a
    · have ht : t.filter (fun r => r.file_path == a) = [] := by
        rw [List.filter_eq_nil_iff]
        intro b hb
        simp only [beq_iff_eq]
        intro hba
        exact hn.1 (List.mem_map.mpr ⟨b, hb, by rw [hba, hr]⟩)
      simp [List.filter_cons, hr, ht]
    · obtain ⟨b, hb, hba⟩ := hx
      rcases List.mem_cons.mp hb with hb | hb
      · exact absurd (hb ▸ hba) hr
      · have : (r.file_path == a) = false := by simp [hr]
        simp only [List.filter_cons, this, if_false]
        exact ih hn.2 ⟨b, hb, hba⟩


/-- C1 amended: for every ingestion attempt that fails partway (in either
branch), the relational write is rolled back (the committed `documents`
rows are exactly what they were before the call) and scratch cleanup is
performed before the error is re-raised.  (The both-present-or-both-absent
pairing of Document Record and index collection claimed in addition to this
does NOT hold — see `c1_consistency_counterexample`.) -/
theorem c1_failure_rolls_back_and_cleans (env : IngestEnv) (p : PathInput)
    (st st2 : SysState) (e : IngestError)
    (h : load_file env p st = (.error e, st2)) :
    st2.records = st.records ∧ st2.scratch = 0 := by
  cases hpe : env.pathExists <;> cases hpdf : env.isPdf <;>
    cases hc : env.confirmOverwrite <;> cases hd : env.deleteOk <;>
    cases hpr : env.processOk <;> cases hb : env.buildOk <;>
    cases hco : env.commitOk <;>
    rcases hfind : st.records.find? (fun r => r.file_path == p.abs) with _ | ex <;>
    simp only [load_file, overwriteFlow, createFlow, failCleanup, hpe, hpdf, hc, hd,
      hpr, hb, hco, hfind, Bool.not_true, Bool.not_false, Bool.false_or, Bool.true_or,
      Bool.or_false, if_true, if_false, ite_true, ite_false] at h <;>
    (try split at h) <;> (try split at h) <;> (try split at h) <;>
    simp only [Prod.mk.injEq] at h <;>
    first
      | (obtain ⟨-, hst⟩ := h; subst hst; exact ⟨rfl, rfl⟩)
      | simp at h

/-- C1 counterexample: start from a consistent state (one record, its index
collection present), confirm re-indexing, and let `process_pdf` fail.
`IndexService.delete_index` has already committed the index deletion, and
`db.rollback()` cannot restore it: the error is raised, the rollback and
cleanup run, yet afterwards the Document Record is present while its index
collection is absent — refuting the claimed both-or-neither invariant. -/
theorem c1_consistency_counterexample :
    consistentB sampleSt = true ∧
    (load_file envProcessFails samplePath sampleSt).1 = .error .providerError ∧
    (load_file envProcessFails samplePath sampleSt).2.records = [sampleRec] ∧
    consistentB (load_file envProcessFails samplePath sampleSt).2 = false :=
  ⟨rfl, rfl, rfl, rfl⟩

/-- Witness for `c1_failure_rolls_back_and_cleans` at the concrete failing
run used in the counterexample. -/
theorem c1_failure_rolls_back_and_cleans_witness :
    (load_file envProcessFails samplePath sampleSt).2.records = sampleSt.records ∧
    (load_file envProcessFails samplePath sampleSt).2.scratch = 0 :=
  c1_failure_rolls_back_and_cleans envProcessFails samplePath sampleSt
    (load_file envProcessFails samplePath sampleSt).2 .providerError rfl


/-- C3: re-ingesting an already-ingested path with re-indexing declined
returns `already_exists` carrying the existing record's identity (its id;
the record — hence its collection id — is untouched), and the entire system
state (documents table, vector collections, scratch dir, uuid supply) is
returned unchanged: zero writes to the vector index and zero writes to the
relational store. -/
theorem c3_decline_is_readonly (env : IngestEnv) (p : PathInput) (st : SysState)
    (ex : FileRecord)
    (hfind : st.records.find? (fun r => r.file_path == p.abs) = some ex)
    (hpe : env.pathExists = true) (hpdf : env.isPdf = true)
    (hc : env.confirmOverwrite = false) :
    load_file env p st =
      (.ok { file_id := ex.id, file_name := ex.file_name, file_path := ex.file_path,
             status := Status.already_exists }, st) := by
  simp [load_file, hpe, hpdf, hc, hfind]

/-- Witness for `c3_decline_is_readonly`: declining the re-index prompt on
the sample state is a pure read. -/
theorem c3_decline_is_readonly_witness :
    load_file envAllOkDecline samplePath sampleSt =
      (.ok { file_id := sampleRec.id, file_name := sampleRec.file_name,
             file_path := sampleRec.file_path, status := Status.already_exists },
       sampleSt) :=
  c3_decline_is_readonly envAllOkDecline samplePath sampleSt sampleRec rfl rfl rfl rfl

/-- C2: re-ingesting an already-ingested path with re-indexing confirmed
(and every step succeeding) returns `overwritten` with the original
document id; the vector index is deleted and rebuilt under the same
collection id (and the uuid supply is untouched, so no fresh collection id
is ever drawn); the record is updated in place — new size, type tag and
updated-timestamp, same id, collection id, name, path and creation time —
and exactly one Document Record holds that path afterwards. -/
theorem c2_overwrite_in_place (env : IngestEnv) (p : PathInput) (st : SysState)
    (ex : FileRecord)
    (hfind : st.records.find? (fun r => r.file_path == p.abs) = some ex)
    (hnodup : (st.records.map (fun r => r.file_path)).Nodup)
    (hpe : env.pathExists = true) (hpdf : env.isPdf = true)
    (hc : env.confirmOverwrite = true) (hd : env.deleteOk = true)
    (hpr : env.processOk = true) (hb : env.buildOk = true)
    (hco : env.commitOk = true) :
    (load_file env p st).1 =
      .ok { file_id := ex.id, file_name := ex.file_name, file_path := ex.file_path,
            status := Status.overwritten } ∧
    (load_file env p st).2.collections = ex.index_id :: st.collections.erase ex.index_id ∧
    (load_file env p st).2.nextUuid = st.nextUuid ∧
    ({ ex with file_size := env.statSize, file_type := "pdf", updated_at := env.now }
        ∈ (load_file env p st).2.records) ∧
    ((load_file env p st).2.records.filter (fun r => r.file_path == p.abs)).length = 1 := by
  have hrun : load_file env p st =
      (.ok { file_id := ex.id, file_name := ex.file_name, file_path := ex.file_path,
             status := Status.overwritten },
       { records := st.records.map (fun r =>
           if r.id = ex.id then
             { r with file_size := env.statSize, file_type := "pdf", updated_at := env.now }
           else r),
         collections := ex.index_id :: st.collections.erase ex.index_id,
         scratch := 0, nextUuid := st.nextUuid }) := by
    simp [load_file, overwriteFlow, hpe, hpdf, hc, hd, hpr, hb, hco, hfind]
  rw [hrun]
  refine ⟨rfl, rfl, rfl, ?_, ?_⟩
  · have hmem : ex ∈ st.records := List.mem_of_find?_eq_some hfind
    have := List.mem_map_of_mem (fun r =>
      if r.id = ex.id then
        { r with file_size := env.statSize, file_type := "pdf", updated_at := env.now }
      else r) hmem
    simpa using this
  · have hpa : ex.file_path = p.abs := by
      have := List.find?_some hfind
      simpa [beq_iff_eq] using this
    have hcomm : (st.records.map (fun r =>
        if r.id = ex.id then
          { r with file_size := env.statSize, file_type := "pdf", updated_at := env.now }
        else r)).filter (fun r => r.file_path == p.abs)
        = (st.records.filter (fun r => r.file_path == p.abs)).map (fun r =>
            if r.id = ex.id then
              { r with file_size := env.statSize, file_type := "pdf", updated_at := env.now }
            else r) := by
      rw [List.filter_map]
      congr 1
      apply List.filter_congr
      intro r hr
      by_cases hid : r.id = ex.id <;> simp [hid, Function.comp]
    rw [hcomm, List.length_map]
    exact filter_path_length_one st.records p.abs hnodup
      ⟨ex, List.mem_of_find?_eq_some hfind, hpa⟩

/-- Witness for `c2_overwrite_in_place`: confirming re-indexing of the
sample record succeeds and rewrites in place. -/
theorem c2_overwrite_in_place_witness :
    (load_file envOverwriteOk samplePath sampleSt).1 =
      .ok { file_id := sampleRec.id, file_name := sampleRec.file_name,
            file_path := sampleRec.file_path, status := Status.overwritten } ∧
    (load_file envOverwriteOk samplePath sampleSt).2.collections =
      sampleRec.index_id :: sampleSt.collections.erase sampleRec.index_id ∧
    (load_file envOverwriteOk samplePath sampleSt).2.nextUuid = sampleSt.nextUuid ∧
    ({ sampleRec with
        file_size := envOverwriteOk.statSize, file_type := "pdf",
        updated_at := envOverwriteOk.now }
      ∈ (load_file envOverwriteOk samplePath sampleSt).2.records) ∧
    ((load_file envOverwriteOk samplePath sampleSt).2.records.filter
        (fun r => r.file_path == samplePath.abs)).length = 1 :=
  c2_overwrite_in_place envOverwriteOk samplePath sampleSt sampleRec rfl
    (by decide) rfl rfl rfl rfl rfl rfl rfl


/-- C5 counterexample: the first successful ingestion of a new path returns
the status tag "success" (from `Status.SUCCESS` in the source), which is not
the "created" tag the claim names: the claimed status set
(created / already_exists / overwritten) is not the code's status set. -/
theorem c5_created_counterexample :
    (load_file envAllOkDecline freshPath sampleSt).1 =
      .ok { file_id := 3, file_name := "new.pdf", file_path := "/docs/new.pdf",
            status := "success" } ∧
    "success" ≠ "created" ∧ "success" ≠ "already_exists" ∧ "success" ≠ "overwritten" :=
  ⟨rfl, by decide, by decide, by decide⟩

/-- C5 amended: every successful `load_file` result carries a status from
the set (success / already_exists / overwritten) — with "success", not
"created", as the tag of a first ingestion — and the first successful
ingestion of a new path returns "success" together with the new record's
identity: a record with the returned id exists for that path, and its index
collection exists. -/
theorem c5_status_range (env : IngestEnv) (p : PathInput) (st st2 : SysState)
    (res : LoadResult) (h : load_file env p st = (.ok res, st2)) :
    (res.status = Status.success ∨ res.status = Status.already_exists ∨
      res.status = Status.overwritten) ∧
    (st.records.find? (fun r => r.file_path == p.abs) = none →
      res.status = Status.success ∧
      ∃ r ∈ st2.records, r.id = res.file_id ∧ r.file_path = p.abs ∧
        r.index_id ∈ st2.collections) := by
  cases hpe : env.pathExists <;> cases hpdf : env.isPdf <;>
    cases hc : env.confirmOverwrite <;> cases hd : env.deleteOk <;>
    cases hpr : env.processOk <;> cases hb : env.buildOk <;>
    cases hco : env.commitOk <;>
    rcases hfind : st.records.find? (fun r => r.file_path == p.abs) with _ | ex <;>
    simp only [load_file, overwriteFlow, createFlow, failCleanup, hpe, hpdf, hc, hd,
      hpr, hb, hco, hfind, Bool.not_true, Bool.not_false, if_true, if_false,
      ite_true, ite_false] at h <;>
    (try split at h) <;> (try split at h) <;> (try split at h) <;>
    simp only [Prod.mk.injEq, Except.ok.injEq] at h <;>
    first
      | simp at h
      | (obtain ⟨hres, hst⟩ := h
         subst hres
         subst hst
         refine ⟨by simp [Status.success, Status.already_exists, Status.overwritten], ?_⟩
         intro hnone
         rw [hfind] at hnone
         exact Option.noConfusion hnone)
      | (obtain ⟨hres, hst⟩ := h
         subst hres
         subst hst
         refine ⟨Or.inl rfl, fun hnone => ⟨rfl, ?_⟩⟩
         exact ⟨_, List.mem_append_right _ (List.mem_singleton_self _), rfl, rfl,
           List.mem_cons_self _ _⟩)

/-- Witness for `c5_status_range` at the concrete first ingestion of
`freshPath` into the sample state. -/
theorem c5_status_range_witness :
    (((load_file envAllOkDecline freshPath sampleSt).1 =
        .ok { file_id := 3, file_name := "new.pdf", file_path := "/docs/new.pdf",
              status := "success" })) ∧
    (("success" = Status.success ∨ "success" = Status.already_exists ∨
        "success" = Status.overwritten) ∧
      (sampleSt.records.find? (fun r => r.file_path == freshPath.abs) = none →
        "success" = Status.success ∧
        ∃ r ∈ (load_file envAllOkDecline freshPath sampleSt).2.records,
          r.id = 3 ∧ r.file_path = freshPath.abs ∧
          r.index_id ∈ (load_file envAllOkDecline freshPath sampleSt).2.collections)) :=
  ⟨rfl, c5_status_range envAllOkDecline freshPath sampleSt
    (load_file envAllOkDecline freshPath sampleSt).2
    { file_id := 3, file_name := "new.pdf", file_path := "/docs/new.pdf",
      status := "success" } rfl⟩

/-- C9 step lemma: `load_file` preserves the registry invariant (pairwise
distinct file paths, pairwise distinct index collection ids, ids below the
uuid supply). -/
theorem registryInv_preserved (env : IngestEnv) (p : PathInput) (st : SysState)
    (h : RegistryInv st) : RegistryInv (load_file env p st).2 := by
  obtain ⟨h1, h2, h3⟩ := h
  cases hpe : env.pathExists <;> cases hpdf : env.isPdf <;>
    cases hc : env.confirmOverwrite <;> cases hd : env.deleteOk <;>
    cases hpr : env.processOk <;> cases hb : env.buildOk <;>
    cases hco : env.commitOk <;>
    rcases hfind : st.records.find? (fun r => r.file_path == p.abs) with _ | ex <;>
    simp only [load_file, overwriteFlow, createFlow, failCleanup, hpe, hpdf, hc, hd,
      hpr, hb, hco, hfind, Bool.not_true, Bool.not_false, if_true, if_false,
      ite_true, ite_false] <;>
    (try split) <;> (try split) <;> (try split) <;>
    simp only [RegistryInv] <;>
    first
      | exact ⟨h1, h2, h3⟩
      | (refine ⟨h1, h2, fun r hr => ?_⟩
         obtain ⟨ha, hb2⟩ := h3 r hr
         exact ⟨by omega, by omega⟩)
      | (refine ⟨?_, ?_, ?_⟩
         · simpa [List.map_map, Function.comp_def,
             apply_ite (fun r : FileRecord => r.file_path), ite_self] using h1
         · simpa [List.map_map, Function.comp_def,
             apply_ite (fun r : FileRecord => r.index_id), ite_self] using h2
         · intro r hr
           obtain ⟨s, hs, rfl⟩ := List.mem_map.mp hr
           obtain ⟨ha, hb2⟩ := h3 s hs
           by_cases hid : s.id = ex.id <;> simp [hid] <;> omega)
      | (have hnew : ∀ r ∈ st.records, ¬(r.file_path = p.abs) := by
           intro r hr
           have := List.find?_eq_none.mp hfind r hr
           simpa [beq_iff_eq] using this
         refine ⟨?_, ?_, ?_⟩
         · rw [List.map_append, List.nodup_append]
           refine ⟨h1, by simp, ?_⟩
           intro a ha hb2
           obtain ⟨s, hs, rfl⟩ := List.mem_map.mp ha
           simp only [List.map_cons, List.map_nil, List.mem_singleton] at hb2
           exact hnew s hs hb2
         · rw [List.map_append, List.nodup_append]
           refine ⟨h2, by simp, ?_⟩
           intro a ha hb2
           obtain ⟨s, hs, rfl⟩ := List.mem_map.mp ha
           simp only [List.map_cons, List.map_nil, List.mem_singleton] at hb2
           have := (h3 s hs).1
           omega
         · intro r hr
           rcases List.mem_append.mp hr with hr | hr
           · obtain ⟨ha, hb2⟩ := h3 r hr
             exact ⟨by omega, by omega⟩
           · simp only [List.mem_singleton] at hr
             subst hr
             constructor <;> simp <;> omega)

/-- C9: in every state reachable through the File Registry, the file path
is unique across all Document Records and the index collection id is unique
(and non-null: every record stores one, the column being `nullable=False`).
The DB's `file_name` unique constraint additionally keeps display names
unique, enforced at commit time in `createFlow`. -/
theorem c9_registry_uniqueness (st : SysState) (h : Reachable st) :
    (st.records.map (fun r => r.file_path)).Nodup ∧
    (st.records.map (fun r => r.index_id)).Nodup := by
  have hinv : RegistryInv st := by
    induction h with
    | init s => exact ⟨by simp, by simp, by simp⟩
    | step env p st hst ih => exact registryInv_preserved env p st ih
  exact ⟨hinv.1, hinv.2.1⟩

/-- Witness for `c9_registry_uniqueness` at a reachable two-step state. -/
theorem c9_registry_uniqueness_witness :
    (((load_file envAllOkDecline freshPath
        { records := [], collections := [], scratch := 0, nextUuid := 0 }).2.records.map
        (fun r => r.file_path)).Nodup ∧
      ((load_file envAllOkDecline freshPath
        { records := [], collections := [], scratch := 0, nextUuid := 0 }).2.records.map
        (fun r => r.index_id)).Nodup) :=
  c9_registry_uniqueness _
    (Reachable.step envAllOkDecline freshPath _ (Reachable.init 0))


/-- Helper: with a positive chunk size, concatenating the chunks restores
the original list. -/
theorem chunkedAux_join (size : Nat) (hs : 0 < size) :
    ∀ (fuel : Nat) (l : List α), l.length ≤ fuel →
      (chunkedAux fuel l size).flatten = l := by
  intro fuel
  induction fuel with
  | zero =>
    intro l hl
    have hnil : l = [] := List.eq_nil_of_length_eq_zero (Nat.le_zero.mp hl)
    subst hnil
    rfl
  | succ fuel ih =>
    intro l hl
    cases l with
    | nil => rfl
    | cons x xs =>
      show (List.take size (x :: xs) :: chunkedAux fuel (List.drop size (x :: xs)) size).flatten
          = x :: xs
      have hdrop : (List.drop size (x :: xs)).length ≤ fuel := by
        rw [List.length_drop]
        simp only [List.length_cons] at hl ⊢
        omega
      simp only [List.flatten]
      rw [ih (List.drop size (x :: xs)) hdrop, List.take_append_drop]

/-- Helper: a successful batch run yields one analysis per image. -/
theorem runBatches_ok_length (provider : Nat → Except Unit (List (Nat × String))) :
    ∀ (bs : List (List α)) (start : Nat) (res : List String),
      runBatches provider start bs = .ok res →
      res.length = (bs.map List.length).sum := by
  intro bs
  induction bs with
  | nil =>
    intro start res h
    simp only [runBatches, Except.ok.injEq] at h
    subst h
    rfl
  | cons b bs ih =>
    intro start res h
    simp only [runBatches] at h
    cases hp : provider start with
    | error e => rw [hp] at h; exact absurd h (by simp)
    | ok pairs =>
      rw [hp] at h
      cases hr : runBatches provider (start + 1) bs with
      | error e => rw [hr] at h; exact absurd h (by simp)
      | ok rest =>
        rw [hr] at h
        simp only [Except.ok.injEq] at h
        subst h
        simp [ih (start + 1) rest hr]

/-- Helper: when every provider call succeeds, the batch run returns, for
each batch in order, one entry per image: the response's analysis for index
`i + 1` or the missing-analysis sentinel. -/
theorem runBatches_allOk (provider : Nat → Except Unit (List (Nat × String)))
    (prs : Nat → List (Nat × String)) (hok : ∀ j, provider j = .ok (prs j)) :
    ∀ (bs : List (List α)) (start : Nat),
      runBatches provider start bs =
        .ok (((bs.enumFrom start).map (fun jb =>
          (List.range jb.2.length).map (fun i =>
            (batchLookup (prs jb.1) (i + 1)).getD missingSentinel))).flatten) := by
  intro bs
  induction bs with
  | nil => intro start; simp [runBatches]
  | cons b bs ih =>
    intro start
    simp [runBatches, hok start, ih (start + 1), List.enumFrom, List.flatten]

/-- Helper: a failing batch anywhere in range makes the whole batch run
raise. -/
theorem runBatches_error (provider : Nat → Except Unit (List (Nat × String))) :
    ∀ (bs : List (List α)) (start : Nat),
      (∃ j, j < bs.length ∧ provider (start + j) = .error ()) →
      runBatches provider start bs = .error () := by
  intro bs
  induction bs with
  | nil =>
    intro start h
    obtain ⟨j, hj, -⟩ := h
    exact absurd hj (by simp)
  | cons b bs ih =>
    intro start h
    obtain ⟨j, hj, herr⟩ := h
    cases hp : provider start with
    | error e => simp [runBatches, hp]
    | ok pairs =>
      cases j with
      | zero =>
        rw [Nat.add_zero] at herr
        rw [herr] at hp
        exact absurd hp (by simp)
      | succ j =>
        have hstep : provider (start + 1 + j) = .error () := by
          rw [show start + 1 + j = start + (j + 1) by omega]
          exact herr
        have := ih (start + 1) ⟨j, by simpa using Nat.lt_of_succ_lt_succ hj, hstep⟩
        simp [runBatches, hp, this]

/-- C6 counterexample: two images, batch size 1.  The first batch succeeds
(analysis "a" for its image), the second raises.  The claim says the first
image keeps "a" while the second gets the failure sentinel; in fact the
single `try` around the whole loop discards the first batch's result too,
and BOTH images come back as "[Image analysis failed]". -/
theorem c6_batch_isolation_counterexample :
    c6Provider 0 = .ok [(1, "a")] ∧
    analyze_images_batch ([(), ()] : List Unit) 1 c6Provider =
      [failedSentinel, failedSentinel] ∧
    analyze_images_batch ([(), ()] : List Unit) 1 c6Provider ≠
      ["a", failedSentinel] :=
  ⟨rfl, rfl, by decide⟩

/-- C6 amended: batch image analysis always returns exactly one text per
input image; when every batch succeeds, the i-th image of batch j receives
the response's analysis for index i+1, or the "analysis missing" sentinel
when that index is absent; but when ANY batch fails, every image of the
whole input (not only that batch) receives the "analysis failed" sentinel.
Ingestion is not aborted either way: `process_pdf` still returns one node
per page plus one node per image. -/
theorem c6_batch_resilience (l : List α) (batchSize : Nat)
    (provider : Nat → Except Unit (List (Nat × String)))
    (hbs : 0 < batchSize) :
    (analyze_images_batch l batchSize provider).length = l.length ∧
    (∀ prs : Nat → List (Nat × String), (∀ j, provider j = .ok (prs j)) →
      analyze_images_batch l batchSize provider =
        (((chunked l batchSize).enum).map (fun jb =>
          (List.range jb.2.length).map (fun i =>
            (batchLookup (prs jb.1) (i + 1)).getD missingSentinel))).flatten) ∧
    ((∃ j, j < (chunked l batchSize).length ∧ provider j = .error ()) →
      analyze_images_batch l batchSize provider =
        List.replicate l.length failedSentinel) ∧
    (∀ pages : List Page,
      (process_pdf pages true provider).length =
        pages.length + (imageMetas pages).length) := by
  have hjoin : (chunked l batchSize).flatten = l :=
    chunkedAux_join batchSize hbs l.length l (Nat.le_refl _)
  have hlen : ∀ res, runBatches provider 0 (chunked l batchSize) = .ok res →
      res.length = l.length := by
    intro res h
    rw [runBatches_ok_length provider (chunked l batchSize) 0 res h]
    rw [← List.length_flatten, hjoin]
  have hAll : (analyze_images_batch l batchSize provider).length = l.length := by
    by_cases hemp : l.isEmpty
    · rw [List.isEmpty_iff] at hemp
      subst hemp
      rfl
    · simp only [analyze_images_batch, hemp, if_false, Bool.false_eq_true]
      cases hr : runBatches provider 0 (chunked l batchSize) with
      | ok res => simpa using hlen res hr
      | error e => simp
  refine ⟨hAll, ?_, ?_, ?_⟩
  · intro prs hok
    by_cases hemp : l.isEmpty
    · rw [List.isEmpty_iff] at hemp
      subst hemp
      rfl
    · simp only [analyze_images_batch, hemp, if_false, Bool.false_eq_true]
      rw [runBatches_allOk provider prs hok (chunked l batchSize) 0]
      simp [List.enum]
  · intro hfail
    by_cases hemp : l.isEmpty
    · rw [List.isEmpty_iff] at hemp
      subst hemp
      obtain ⟨j, hj, -⟩ := hfail
      simp [chunked, chunkedAux] at hj
    · simp only [analyze_images_batch, hemp, if_false, Bool.false_eq_true]
      obtain ⟨j, hj, herr⟩ := hfail
      rw [runBatches_error provider (chunked l batchSize) 0
        ⟨j, hj, by simpa using herr⟩]
  · intro pages
    show (process_pdf pages true provider).length = _
    simp only [process_pdf, if_true]
    by_cases himg : (imageMetas pages).isEmpty
    · rw [List.isEmpty_iff] at himg
      simp [himg, pageNodes]
    · simp only [himg, if_false, Bool.false_eq_true]
      have h20 : (analyze_images_batch (imageMetas pages) 20 provider).length =
          (imageMetas pages).length := by
        have hjoin20 : (chunked (imageMetas pages) 20).flatten = imageMetas pages :=
          chunkedAux_join 20 (by omega) (imageMetas pages).length _ (Nat.le_refl _)
        by_cases he : (imageMetas pages).isEmpty
        · exact absurd he himg
        · simp only [analyze_images_batch, he, if_false, Bool.false_eq_true]
          cases hr : runBatches provider 0 (chunked (imageMetas pages) 20) with
          | ok res =>
            have := runBatches_ok_length provider (chunked (imageMetas pages) 20) 0 res hr
            rw [← List.length_flatten, hjoin20] at this
            simpa using this
          | error e => simp
      simp [pageNodes, List.length_zip, h20]

/-- Witness for `c6_batch_resilience` at the concrete two-image, size-one
run of the counterexample. -/
theorem c6_batch_resilience_witness :
    (analyze_images_batch ([(), ()] : List Unit) 1 c6Provider).length =
      ([(), ()] : List Unit).length ∧
    (∀ prs : Nat → List (Nat × String), (∀ j, c6Provider j = .ok (prs j)) →
      analyze_images_batch ([(), ()] : List Unit) 1 c6Provider =
        (((chunked ([(), ()] : List Unit) 1).enum).map (fun jb =>
          (List.range jb.2.length).map (fun i =>
            (batchLookup (prs jb.1) (i + 1)).getD missingSentinel))).flatten) ∧
    ((∃ j, j < (chunked ([(), ()] : List Unit) 1).length ∧ c6Provider j = .error ()) →
      analyze_images_batch ([(), ()] : List Unit) 1 c6Provider =
        List.replicate ([(), ()] : List Unit).length failedSentinel) ∧
    (∀ pages : List Page,
      (process_pdf pages true c6Provider).length =
        pages.length + (imageMetas pages).length) :=
  c6_batch_resilience ([(), ()] : List Unit) 1 c6Provider (by decide)


/-- C4: a `CacheService` constructed while the backend is unreachable is
permanently degraded: whatever the backend's availability at call time
(the stored client decides — nothing is re-probed per call) and whatever
the backend holds, `get` returns absent (`None`), `set` returns `False`,
`delete` returns `False` and `clear_pattern` returns `0`, none of them
touching the store.  None of these operations can raise: each is a total
function, the source catching every backend exception. -/
theorem c4_degraded_cache (backendUp : Bool) (store : RedisStore)
    (key : String) (value : PyValue) (ttl : Nat) (pat : String → Bool) :
    cache_get (CacheService.init false) backendUp store key = .noneV ∧
    cache_set (CacheService.init false) backendUp store key value ttl = (false, store) ∧
    cache_delete (CacheService.init false) backendUp store key = (false, store) ∧
    clear_pattern (CacheService.init false) backendUp store pat = (0, store) :=
  ⟨rfl, rfl, rfl, rfl⟩

/-- C10: with well-formed arguments, the MCP `load_pdf` tool always fails —
its `load_file(file_path, interactive=False)` call passes a keyword
`load_file` does not accept, raising `TypeError` before any work — and the
MCP `delete_file` tool always fails — `PDFService` defines no
`delete_file`, so the attribute access raises `AttributeError`.  Both
return the handler's error response and leave the state untouched: the
programmatic entry point can never ingest or delete a file. -/
theorem c10_mcp_tools_always_error (env : IngestEnv) (p : PathInput)
    (fid : Nat) (st : SysState) :
    mcp_load_pdf env (some p) st = (.toolError "Error executing tool", st) ∧
    mcp_delete_file (some fid) st = (.toolError "Error executing tool", st) :=
  ⟨rfl, rfl⟩

/-- Helper: updating the session map rewrites the entry `find?` sees. -/
theorem find?_map_update (sessions : List (Nat × List Turn)) (fid : Nat)
    (nh : List Turn) (e : Nat × List Turn)
    (h : List.find? (fun e => e.1 == fid) sessions = some e) :
    List.find? (fun e => e.1 == fid)
      (sessions.map (fun e => if e.1 == fid then (fid, nh) else e)) =
      some (fid, nh) := by
  induction sessions with
  | nil => simp at h
  | cons x xs ih =>
    rw [List.map_cons]
    by_cases hx : (x.1 == fid) = true
    · rw [if_pos hx, List.find?_cons_of_pos _ (by simp)]
    · rw [if_neg hx]
      rw [Bool.not_eq_true] at hx
      simp only [List.find?_cons, hx] at h ⊢
      exact ih h

/-- C7: for every document, a successful `query` appends exactly one user
turn followed by one assistant turn to the in-memory history and persists
the full updated history to the cache under the document's history key
with TTL 7200 (whenever the cache is live); a failed index load or a
failed generation propagates the error and leaves the history — in the
session map and in the cache — exactly as it was. -/
theorem c7_history_append_pairs (svc : CacheService) (env : AgentEnv)
    (question : String) (fid : Nat) (st : AgentState) :
    (env.chatOk = true →
      ((List.find? (fun e => e.1 == fid) st.file_sessions).isSome = true ∨
        env.loadIndexOk = true) →
      (agent_query svc env question fid st).1 = .ok (env.answer, false) ∧
      (List.find? (fun e => e.1 == fid)
          (agent_query svc env question fid st).2.file_sessions).map (fun e => e.2) =
        some (effectiveHistory svc env.backendUp st fid ++
          [{ role := "user", content := question, timestamp := env.nowUser },
           { role := "assistant", content := env.answer, timestamp := env.nowAssistant }]) ∧
      (svc.redis_client = true → env.backendUp = true →
        storeFind? (agent_query svc env question fid st).2.cacheStore (historyKey fid) =
          some (json_dumps (.listV (turnsToPyValues
              (effectiveHistory svc env.backendUp st fid ++
                [{ role := "user", content := question, timestamp := env.nowUser },
                 { role := "assistant", content := env.answer,
                   timestamp := env.nowAssistant }]))),
            7200))) ∧
    ((agent_query svc env question fid st).1 = .error () →
      (agent_query svc env question fid st).2.cacheStore = st.cacheStore ∧
      effectiveHistory svc env.backendUp (agent_query svc env question fid st).2 fid =
        effectiveHistory svc env.backendUp st fid) := by
  rcases hf : List.find? (fun e => e.1 == fid) st.file_sessions with _ | e <;>
    cases hl : env.loadIndexOk <;> cases hc : env.chatOk <;>
    simp only [agent_query, hf, hl, hc, Bool.not_true, Bool.not_false, if_true,
      if_false, ite_true, ite_false, Bool.false_eq_true, Bool.true_eq_false]
  · exact ⟨fun h => h.elim, fun _ => ⟨trivial, trivial⟩⟩
  · exact ⟨fun _ h => absurd h (by simp), fun _ => ⟨trivial, trivial⟩⟩
  · exact ⟨fun h => h.elim, fun _ => ⟨trivial, by simp [effectiveHistory, hf]⟩⟩
  · refine ⟨fun _ _ => ⟨trivial, ?_, ?_⟩, fun h => absurd h (by simp)⟩
    · simp [effectiveHistory, hf]
    · intro hsr hbu
      simp [cache_set, hsr, hbu, serializeForSet, storeFind?, storeSet,
        effectiveHistory, hf]
  · exact ⟨fun h => h.elim, fun _ => ⟨trivial, trivial⟩⟩
  · refine ⟨fun _ _ => ⟨trivial, ?_, ?_⟩, fun h => absurd h (by simp)⟩
    · rw [find?_map_update st.file_sessions fid _ e hf]
      simp [effectiveHistory, hf]
    · intro hsr hbu
      simp [cache_set, hsr, hbu, serializeForSet, storeFind?, storeSet]
  · exact ⟨fun h => h.elim, fun _ => ⟨trivial, trivial⟩⟩
  · refine ⟨fun _ _ => ⟨trivial, ?_, ?_⟩, fun h => absurd h (by simp)⟩
    · rw [find?_map_update st.file_sessions fid _ e hf]
      simp [effectiveHistory, hf]
    · intro hsr hbu
      simp [cache_set, hsr, hbu, serializeForSet, storeFind?, storeSet]



/-- Witness for `c7_history_append_pairs`: a concrete successful first
query appends exactly the user/assistant pair and persists it with
TTL 7200. -/
theorem c7_history_append_pairs_witness :
    (agent_query (CacheService.init true) c7Env "q" 7 c7St).1 = .ok (c7Env.answer, false) ∧
    (List.find? (fun e => e.1 == 7)
        (agent_query (CacheService.init true) c7Env "q" 7 c7St).2.file_sessions).map
        (fun e => e.2) =
      some (effectiveHistory (CacheService.init true) c7Env.backendUp c7St 7 ++
        [{ role := "user", content := "q", timestamp := c7Env.nowUser },
         { role := "assistant", content := c7Env.answer, timestamp := c7Env.nowAssistant }]) ∧
    ((CacheService.init true).redis_client = true → c7Env.backendUp = true →
      storeFind? (agent_query (CacheService.init true) c7Env "q" 7 c7St).2.cacheStore
          (historyKey 7) =
        some (json_dumps (.listV (turnsToPyValues
            (effectiveHistory (CacheService.init true) c7Env.backendUp c7St 7 ++
              [{ role := "user", content := "q", timestamp := c7Env.nowUser },
               { role := "assistant", content := c7Env.answer,
                 timestamp := c7Env.nowAssistant }]))),
          7200)) :=
  (c7_history_append_pairs (CacheService.init true) c7Env "q" 7 c7St).1 rfl (Or.inr rfl)


/-- Helper: a non-whitespace head passes `skipWs` untouched. -/
theorem skipWs_not_ws (c : Char) (cs : List Char) (h : isWsChar c = false) :
    skipWs (c :: cs) = c :: cs := by
  simp [skipWs, h]

/-- Helper: a whitespace head is dropped by `skipWs`. -/
theorem skipWs_ws (c : Char) (cs : List Char) (h : isWsChar c = true) :
    skipWs (c :: cs) = skipWs cs := by
  simp [skipWs, h]

/-- Helper: `parseVal` ignores a leading whitespace character. -/
theorem parseVal_drop_ws (fuel : Nat) (c : Char) (cs : List Char)
    (h : isWsChar c = true) :
    parseVal (fuel + 1) (c :: cs) = parseVal (fuel + 1) cs := by
  simp only [parseVal]
  rw [skipWs_ws c cs h]

/-- Helper: a digit character is none of the token-start characters of the
JSON grammar and is not whitespace. -/
theorem digit_facts (c : Char) (h : c.isDigit = true) :
    c ≠ 'n' ∧ c ≠ 't' ∧ c ≠ 'f' ∧ c ≠ '"' ∧ c ≠ '[' ∧ c ≠ lbrace ∧ c ≠ '-' ∧
      isWsChar c = false ∧ c ≠ ']' ∧ c ≠ ',' ∧ c ≠ rbrace ∧ c ≠ 'N' ∧ c ≠ 'I' := by
  have hws : isWsChar c = false := by
    by_cases h1 : c = ' '
    · subst h1; exact absurd h (by decide)
    · by_cases h2 : c = '\t'
      · subst h2; exact absurd h (by decide)
      · by_cases h3 : c = '\n'
        · subst h3; exact absurd h (by decide)
        · by_cases h4 : c = '\r'
          · subst h4; exact absurd h (by decide)
          · simp [isWsChar, h1, h2, h3, h4]
  refine ⟨?_, ?_, ?_, ?_, ?_, ?_, ?_, hws, ?_, ?_, ?_, ?_, ?_⟩ <;>
    (intro hc; subst hc; exact absurd h (by decide))

/-- Helper: `spanDigits` splits a digit run from a non-digit-led tail. -/
theorem spanDigits_append (A B : List Char) (hA : ∀ c ∈ A, c.isDigit = true)
    (hB : ∀ c t, B = c :: t → c.isDigit = false) :
    spanDigits (A ++ B) = (A, B) := by
  induction A with
  | nil =>
    cases B with
    | nil => rfl
    | cons c t => simp [spanDigits, hB c t rfl]
  | cons a A ih =>
    have ha : a.isDigit = true := hA a (by simp)
    simp only [List.cons_append, spanDigits, ha, if_true, List.append_eq]
    rw [ih (fun c hc => hA c (by simp [hc]))]

/-- Helper: rendered naturals are nonempty digit runs with the rendered
value. -/
theorem natCharsAux_spec (fuel : Nat) :
    ∀ n, n < fuel →
      natCharsAux fuel n ≠ [] ∧ (∀ c ∈ natCharsAux fuel n, c.isDigit = true) ∧
        charsVal (natCharsAux fuel n) = n := by
  induction fuel with
  | zero => intro n hn; omega
  | succ fuel ih =>
    intro n hn
    by_cases h10 : n < 10
    · refine ⟨by simp [natCharsAux, h10], ?_, ?_⟩
      · intro c hc
        simp only [natCharsAux, h10, if_true, List.mem_singleton] at hc
        subst hc
        interval_cases n <;> decide
      · simp only [natCharsAux, h10, if_true, charsVal, List.foldl]
        interval_cases n <;> decide
    · have hdiv : n / 10 < fuel := by omega
      obtain ⟨hne, hdig, hval⟩ := ih (n / 10) hdiv
      refine ⟨by simp [natCharsAux, h10], ?_, ?_⟩
      · intro c hc
        simp only [natCharsAux, h10, if_false, List.mem_append, List.mem_singleton] at hc
        rcases hc with hc | hc
        · exact hdig c hc
        · subst hc
          have : n % 10 < 10 := Nat.mod_lt _ (by omega)
          interval_cases h : n % 10 <;> simp [digitChar]
      · simp only [natCharsAux, h10, if_false, charsVal, List.foldl_append]
        have hm : n % 10 < 10 := Nat.mod_lt _ (by omega)
        have hdv : digitVal (digitChar (n % 10)) = n % 10 := by
          interval_cases h : n % 10 <;> decide
        simp only [List.foldl]
        rw [show List.foldl (fun a c => 10 * a + digitVal c) 0 (natCharsAux fuel (n / 10))
            = charsVal (natCharsAux fuel (n / 10)) from rfl, hval, hdv]
        omega

/-- Helper: `natChars` facts at the standard fuel. -/
theorem natChars_spec (n : Nat) :
    natChars n ≠ [] ∧ (∀ c ∈ natChars n, c.isDigit = true) ∧
      charsVal (natChars n) = n :=
  natCharsAux_spec (n + 1) n (by omega)

/-- Helper: a rendered positive natural never starts with `0` (so the
strict `json.loads` integer grammar accepts it whole). -/
theorem natCharsAux_head (fuel : Nat) :
    ∀ n, n < fuel → 0 < n → ∃ c t, natCharsAux fuel n = c :: t ∧ c ≠ '0' := by
  induction fuel with
  | zero => intro n hn; omega
  | succ fuel ih =>
    intro n hn hpos
    by_cases h10 : n < 10
    · refine ⟨digitChar n, [], by simp [natCharsAux, h10], ?_⟩
      interval_cases n <;> decide
    · obtain ⟨c, t, hct, hc0⟩ := ih (n / 10) (by omega) (by omega)
      exact ⟨c, t ++ [digitChar (n % 10)], by simp [natCharsAux, h10, hct], hc0⟩

/-- Helper: `natChars` of a positive natural starts with a nonzero
digit. -/
theorem natChars_head (n : Nat) (h : 0 < n) :
    ∃ c t, natChars n = c :: t ∧ c ≠ '0' :=
  natCharsAux_head (n + 1) n (by omega) h

/-- Helper: the JSON integer-part grammar accepts a rendered natural
whole, when the tail cannot extend the digit run. -/
theorem parseIntPart_natChars (n : Nat) (B : List Char)
    (hB : ∀ c t, B = c :: t → c.isDigit = false) :
    parseIntPart (natChars n ++ B) = some (natChars n, B) := by
  obtain ⟨hne, hdig, -⟩ := natChars_spec n
  by_cases hn : n = 0
  · subst hn
    show parseIntPart ('0' :: B) = some (['0'], B)
    simp [parseIntPart]
  · obtain ⟨c, t, h, hc0⟩ := natChars_head n (by omega)
    have hc : c.isDigit = true := hdig c (by rw [h]; simp)
    have htd : ∀ d ∈ t, d.isDigit = true := fun d hd => hdig d (by rw [h]; simp [hd])
    rw [h, List.cons_append]
    simp [parseIntPart, hc0, hc, spanDigits_append t B htd hB]

/-- Helper: a non-extending tail holds no fraction. -/
theorem parseFrac_notExt (B : List Char) (hB : notNumExt B) :
    parseFrac B = some ([], B) := by
  cases B with
  | nil => rfl
  | cons c t =>
    obtain ⟨-, hdot, -, -⟩ := hB c t rfl
    simp [parseFrac, hdot]

/-- Helper: a non-extending tail holds no exponent. -/
theorem parseExp_notExt (B : List Char) (hB : notNumExt B) :
    parseExp B = some ([], B) := by
  cases B with
  | nil => rfl
  | cons c t =>
    obtain ⟨-, -, he, hE⟩ := hB c t rfl
    simp [parseExp, he, hE]

/-- Helper: the JSON number grammar reads a rendered natural as exactly
that integer when the tail cannot extend the span. -/
theorem parseUnsignedNum_natChars (neg : Bool) (n : Nat) (B : List Char)
    (hB : notNumExt B) :
    parseUnsignedNum neg (natChars n ++ B)
      = some (.intV (if neg then -(n : Int) else (n : Int)), B) := by
  obtain ⟨-, -, hval⟩ := natChars_spec n
  simp only [parseUnsignedNum, parseIntPart_natChars n B (fun c t h => (hB c t h).1),
    parseFrac_notExt B hB, parseExp_notExt B hB]
  simp [hval]

/-- Helper: a signless rendered natural parses as that integer. -/
theorem parseNumber_natChars (n : Nat) (B : List Char) (hB : notNumExt B) :
    parseNumber (natChars n ++ B) = some (.intV (n : Int), B) := by
  obtain ⟨hne, hdig, -⟩ := natChars_spec n
  cases h : natChars n with
  | nil => exact absurd h hne
  | cons c t =>
    have hc : c.isDigit = true := hdig c (by rw [h]; simp)
    obtain ⟨-, -, -, -, -, -, hm, -, -, -, -, -, -⟩ := digit_facts c hc
    have hstep : parseNumber (c :: (t ++ B))
        = if c = '-' then parseUnsignedNum true (t ++ B)
          else parseUnsignedNum false (c :: (t ++ B)) := rfl
    rw [List.cons_append, hstep, if_neg hm, ← List.cons_append, ← h,
      parseUnsignedNum_natChars false n B hB]
    simp

/-- Helper: `hexDigitChar` emits hex digits carrying their value. -/
theorem hexDigitChar_spec (d : Nat) (h : d < 16) :
    isHexDigit (hexDigitChar d) = true ∧ hexVal (hexDigitChar d) = d := by
  interval_cases d <;> exact ⟨by decide, by decide⟩

/-- Helper: a Lean character is a Unicode scalar value — never a
surrogate, always below `0x110000`. -/
theorem char_range (c : Char) :
    c.toNat < 55296 ∨ (57343 < c.toNat ∧ c.toNat < 1114112) := by
  have h := c.valid
  rcases h with h | ⟨h1, h2⟩
  · left; exact h
  · right; exact ⟨h1, h2⟩

/-- Helper: a low-surrogate `\uXXXX` escape is recognized with its
value. -/
theorem lowSur_spec (m : Nat) (h1 : 56320 ≤ m) (h2 : m ≤ 57343) (X : List Char) :
    lowSurEscape? ('\\' :: 'u' :: hexDigitChar (m / 4096 % 16)
        :: hexDigitChar (m / 256 % 16) :: hexDigitChar (m / 16 % 16)
        :: hexDigitChar (m % 16) :: X)
      = some (m, X) := by
  have hy1 := hexDigitChar_spec (m / 4096 % 16) (by omega)
  have hy2 := hexDigitChar_spec (m / 256 % 16) (by omega)
  have hy3 := hexDigitChar_spec (m / 16 % 16) (by omega)
  have hy4 := hexDigitChar_spec (m % 16) (by omega)
  have harith : m / 4096 % 16 * 4096 + m / 256 % 16 * 256 + m / 16 % 16 * 16 + m % 16
      = m := by omega
  simp [lowSurEscape?, hv4, hy1.1, hy1.2, hy2.1, hy2.2, hy3.1, hy3.2, hy4.1, hy4.2,
    harith, h1, h2]

/-- Helper: every character is printed either as itself (then raw-readable
back) or as a backslash escape that `unescape1` decodes to it exactly. -/
theorem escapeChar_cases (c : Char) :
    (escapeChar c = [c] ∧ c ≠ '"' ∧ c ≠ '\\' ∧ 32 ≤ c.toNat) ∨
    (∃ ecs, escapeChar c = '\\' :: ecs ∧
      ∀ X, unescape1 (ecs ++ X) = some (c, X)) := by
  by_cases h1 : c = '"'
  · subst h1
    refine Or.inr ⟨['"'], by simp [escapeChar], fun X => ?_⟩
    simp [unescape1]
  · by_cases h2 : c = '\\'
    · subst h2
      refine Or.inr ⟨['\\'], by simp [escapeChar], fun X => ?_⟩
      simp [unescape1]
    · by_cases h3 : c = Char.ofNat 8
      · subst h3
        refine Or.inr ⟨['b'], by simp [escapeChar], fun X => ?_⟩
        simp [unescape1]
      · by_cases h4 : c = Char.ofNat 12
        · subst h4
          refine Or.inr ⟨['f'], by simp [escapeChar, h3], fun X => ?_⟩
          simp [unescape1]
        · by_cases h5 : c = '\n'
          · subst h5
            refine Or.inr ⟨['n'], by simp [escapeChar], fun X => ?_⟩
            simp [unescape1]
          · by_cases h6 : c = '\r'
            · subst h6
              refine Or.inr ⟨['r'], by simp [escapeChar], fun X => ?_⟩
              simp [unescape1]
            · by_cases h7 : c = '\t'
              · subst h7
                refine Or.inr ⟨['t'], by simp [escapeChar], fun X => ?_⟩
                simp [unescape1]
              · by_cases hp : printableChar c = true
                · obtain ⟨h32, -⟩ := by
                    simpa [printableChar] using hp
                  exact Or.inl ⟨by simp [escapeChar, h1, h2, h3, h4, h5, h6, h7, hp],
                    h1, h2, h32⟩
                · by_cases h16 : c.toNat < 65536
                  · have hx1 := hexDigitChar_spec (c.toNat / 4096 % 16) (by omega)
                    have hx2 := hexDigitChar_spec (c.toNat / 256 % 16) (by omega)
                    have hx3 := hexDigitChar_spec (c.toNat / 16 % 16) (by omega)
                    have hx4 := hexDigitChar_spec (c.toNat % 16) (by omega)
                    have harith : c.toNat / 4096 % 16 * 4096 + c.toNat / 256 % 16 * 256
                        + c.toNat / 16 % 16 * 16 + c.toNat % 16 = c.toNat := by omega
                    have hns : ¬(55296 ≤ c.toNat ∧ c.toNat ≤ 56319) := by
                      rcases char_range c with h | ⟨ha, hb⟩ <;> omega
                    refine Or.inr ⟨'u' :: hex4 c.toNat,
                      by simp [escapeChar, h1, h2, h3, h4, h5, h6, h7, hp, h16],
                      fun X => ?_⟩
                    simp [unescape1, hex4, hv4,
                      hx1.1, hx1.2, hx2.1, hx2.2, hx3.1, hx3.2, hx4.1, hx4.2,
                      harith, hns, Char.ofNat_toNat]
                  · have hq := char_range c
                    have h65 : 65536 ≤ c.toNat := by omega
                    have h11 : c.toNat < 1114112 := by
                      rcases hq with h | ⟨-, hb⟩ <;> omega
                    have hqlt : (c.toNat - 65536) / 1024 < 1024 := by omega
                    have hx1 := hexDigitChar_spec
                      ((55296 + (c.toNat - 65536) / 1024) / 4096 % 16) (by omega)
                    have hx2 := hexDigitChar_spec
                      ((55296 + (c.toNat - 65536) / 1024) / 256 % 16) (by omega)
                    have hx3 := hexDigitChar_spec
                      ((55296 + (c.toNat - 65536) / 1024) / 16 % 16) (by omega)
                    have hx4 := hexDigitChar_spec
                      ((55296 + (c.toNat - 65536) / 1024) % 16) (by omega)
                    have harithHi : (55296 + (c.toNat - 65536) / 1024) / 4096 % 16 * 4096
                        + (55296 + (c.toNat - 65536) / 1024) / 256 % 16 * 256
                        + (55296 + (c.toNat - 65536) / 1024) / 16 % 16 * 16
                        + (55296 + (c.toNat - 65536) / 1024) % 16
                        = 55296 + (c.toNat - 65536) / 1024 := by omega
                    have hcomb3 : 65536 + (c.toNat - 65536) / 1024 * 1024
                        + (c.toNat - 65536) % 1024 = c.toNat := by omega
                    have hhiB : 55296 + (c.toNat - 65536) / 1024 ≤ 56319 := by omega
                    refine Or.inr ⟨'u' :: (hex4 (55296 + (c.toNat - 65536) / 1024)
                        ++ '\\' :: 'u' :: hex4 (56320 + (c.toNat - 65536) % 1024)),
                      by simp [escapeChar, h1, h2, h3, h4, h5, h6, h7, hp, h16],
                      fun X => ?_⟩
                    have hls := lowSur_spec (56320 + (c.toNat - 65536) % 1024)
                      (by omega) (by omega) X
                    simp [unescape1, hex4, hv4,
                      hx1.1, hx1.2, hx2.1, hx2.2, hx3.1, hx3.2, hx4.1, hx4.2,
                      harithHi, hcomb3, hhiB, hls, Char.ofNat_toNat]

/-- Helper: parsing an escaped string body recovers it exactly, leaving
everything after the closing quote untouched (any fuel beyond the number
of characters suffices — one unit is spent per decoded character). -/
theorem parseStrBody_round (s : List Char) :
    ∀ fuel rest, s.length < fuel →
      parseStrBody fuel (escapeChars s ++ '"' :: rest) = some (s, rest) := by
  induction s with
  | nil =>
    intro fuel rest hf
    cases fuel with
    | zero => omega
    | succ f =>
      show parseStrBody (f + 1) ('"' :: rest) = some ([], rest)
      rw [parseStrBody.eq_def]
      simp
  | cons c cs ih =>
    intro fuel rest hf
    cases fuel with
    | zero => omega
    | succ f =>
      have hih := ih f rest (by simp at hf; omega)
      rcases escapeChar_cases c with ⟨he, h1, h2, h32⟩ | ⟨ecs, he, hu⟩
      · rw [show escapeChars (c :: cs) ++ '"' :: rest
            = c :: (escapeChars cs ++ '"' :: rest) by simp [escapeChars, he]]
        rw [parseStrBody.eq_def]
        simp [h1, h2, h32, hih]
      · rw [show escapeChars (c :: cs) ++ '"' :: rest
            = '\\' :: (ecs ++ (escapeChars cs ++ '"' :: rest)) by simp [escapeChars, he]]
        rw [parseStrBody.eq_def]
        simp [hu, hih]

/-- Helper: `parseStr` (the standard-fuel reading) inverts escaping. -/
theorem parseStr_round (s : List Char) (rest : List Char) :
    parseStr (escapeChars s ++ '"' :: rest) = some (s, rest) := by
  have hlen : s.length ≤ (escapeChars s).length := by
    induction s with
    | nil => simp [escapeChars]
    | cons c cs ih =>
      have h := escapeChar_cases c
      have : 1 ≤ (escapeChar c).length := by
        rcases h with ⟨he, -⟩ | ⟨ecs, he, -⟩ <;> simp [he]
      simp [escapeChars]
      omega
  show parseStrBody ((escapeChars s ++ '"' :: rest).length + 1) _ = _
  refine parseStrBody_round s _ rest ?_
  simp
  omega

/-- Helper: every dumped float-free value begins with a non-whitespace
character that is not a list close. -/
theorem dumpV_head (v : PyValue) (hnf : noFloatV v = true) :
    ∃ c t, dumpV v = c :: t ∧ isWsChar c = false ∧ c ≠ ']' := by
  cases v with
  | noneV => exact ⟨'n', _, rfl, by decide, by decide⟩
  | boolV b => cases b with
    | true => exact ⟨'t', _, rfl, by decide, by decide⟩
    | false => exact ⟨'f', _, rfl, by decide, by decide⟩
  | intV n =>
    by_cases hn : n < 0
    · exact ⟨'-', natChars n.natAbs, by simp [dumpV, intChars, hn], by decide, by decide⟩
    · obtain ⟨hne, hdig, -⟩ := natChars_spec n.natAbs
      cases h : natChars n.natAbs with
      | nil => exact absurd h hne
      | cons c t =>
        have hc : c.isDigit = true := hdig c (by rw [h]; simp)
        obtain ⟨-, -, -, -, -, -, -, hws, hrb, -, -, -, -⟩ := digit_facts c hc
        exact ⟨c, t, by simp [dumpV, intChars, hn, h], hws, hrb⟩
  | floatV f => exact absurd hnf (by simp [noFloatV])
  | strV s => exact ⟨'"', _, rfl, by decide, by decide⟩
  | listV vs => cases vs with
    | nil => exact ⟨'[', _, rfl, by decide, by decide⟩
    | cons v vs => exact ⟨'[', _, rfl, by decide, by decide⟩
  | dictV kvs => cases kvs with
    | nil => exact ⟨lbrace, _, rfl, by decide, by decide⟩
    | cons k v kvs => exact ⟨lbrace, _, rfl, by decide, by decide⟩

/-- Helper: after a list element comes `,` or `]` — nothing that could
extend a number span. -/
theorem ndStart_listTail (vs : PyValues) (rest : List Char) :
    notNumExt (dumpListTail vs ++ ']' :: rest) := by
  cases vs with
  | nil =>
    intro c t h
    simp only [dumpListTail, List.nil_append, List.cons.injEq] at h
    rw [← h.1]
    exact ⟨by decide, by decide, by decide, by decide⟩
  | cons v vs =>
    intro c t h
    simp only [dumpListTail, List.cons_append, List.cons.injEq] at h
    rw [← h.1]
    exact ⟨by decide, by decide, by decide, by decide⟩

/-- Helper: after a dict pair comes `,` or the closing brace — nothing
that could extend a number span. -/
theorem ndStart_dictTail (kvs : PyFields) (rest : List Char) :
    notNumExt (dumpDictTail kvs ++ rbrace :: rest) := by
  cases kvs with
  | nil =>
    intro c t h
    simp only [dumpDictTail, List.nil_append, List.cons.injEq] at h
    rw [← h.1]
    exact ⟨by decide, by decide, by decide, by decide⟩
  | cons k v kvs =>
    intro c t h
    simp only [dumpDictTail, List.cons_append, List.cons.injEq] at h
    rw [← h.1]
    exact ⟨by decide, by decide, by decide, by decide⟩

/-- Helper: parse depth is at least 1. -/
theorem depthV_pos (v : PyValue) : 1 ≤ depthV v := by
  cases v with
  | noneV => simp [depthV]
  | boolV b => simp [depthV]
  | intV n => simp [depthV]
  | floatV f => simp [depthV]
  | strV s => simp [depthV]
  | listV vs => cases vs <;> simp [depthV]
  | dictV kvs => cases kvs <;> simp [depthV] <;> omega

mutual
/-- Helper: the parse depth of a float-free value is bounded by its dump
length. -/
theorem depthV_le (v : PyValue) (hnf : noFloatV v = true) :
    depthV v ≤ (dumpV v).length :=
  match v, hnf with
  | .noneV, _ => by simp [depthV, dumpV]
  | .boolV true, _ => by simp [depthV, dumpV]
  | .boolV false, _ => by simp [depthV, dumpV]
  | .intV n, _ => by
    obtain ⟨hne, -, -⟩ := natChars_spec n.natAbs
    have : 1 ≤ (natChars n.natAbs).length := by
      cases h : natChars n.natAbs with
      | nil => exact absurd h hne
      | cons c t => simp
    by_cases hn : n < 0
    · simp only [depthV, dumpV, intChars, hn, if_true, ite_true, List.length_cons]
      omega
    · simp only [depthV, dumpV, intChars, hn, if_false, ite_false]
      omega
  | .floatV f, hnf => by exact absurd hnf (by simp [noFloatV])
  | .strV s, _ => by simp [depthV, dumpV, dumpKey]
  | .listV .nil, _ => by simp [depthV, dumpV]
  | .listV (.cons v vs), hnf => by
    simp only [noFloatV, noFloatL, Bool.and_eq_true] at hnf
    have h1 := depthV_le v hnf.1
    have h2 := depthL_le vs hnf.2
    have h3 := dumpV_ne_nil v hnf.1
    simp only [depthV, dumpV, List.length_cons, List.length_append]
    omega
  | .dictV .nil, _ => by simp [depthV, dumpV]
  | .dictV (.cons k v kvs), hnf => by
    simp only [noFloatV, noFloatF, Bool.and_eq_true] at hnf
    have h1 := depthV_le v hnf.1
    have h2 := depthF_le kvs hnf.2
    simp only [depthV, dumpV, List.length_cons, List.length_append, dumpKey]
    omega

/-- Helper: a float-free dump is never empty. -/
theorem dumpV_ne_nil (v : PyValue) (hnf : noFloatV v = true) :
    1 ≤ (dumpV v).length := by
  obtain ⟨c, t, h, -, -⟩ := dumpV_head v hnf
  rw [h]
  simp

/-- Helper: list-tail depth is bounded by its dump length plus one. -/
theorem depthL_le (vs : PyValues) (hnf : noFloatL vs = true) :
    depthL vs ≤ (dumpListTail vs).length + 1 :=
  match vs, hnf with
  | .nil, _ => by simp [depthL, dumpListTail]
  | .cons v vs, hnf => by
    simp only [noFloatL, Bool.and_eq_true] at hnf
    have h1 := depthV_le v hnf.1
    have h2 := depthL_le vs hnf.2
    simp only [depthL, dumpListTail, List.length_cons, List.length_append]
    omega

/-- Helper: dict-tail depth is bounded by its dump length plus one. -/
theorem depthF_le (kvs : PyFields) (hnf : noFloatF kvs = true) :
    depthF kvs ≤ (dumpDictTail kvs).length + 1 :=
  match kvs, hnf with
  | .nil, _ => by simp [depthF, dumpDictTail]
  | .cons k v kvs, hnf => by
    simp only [noFloatF, Bool.and_eq_true] at hnf
    have h1 := depthV_le v hnf.1
    have h2 := depthF_le kvs hnf.2
    simp only [depthF, dumpDictTail, List.length_cons, List.length_append, dumpKey]
    omega
end

/-- Helper: the round-trip of the fuelled parser over the printer, by
induction on fuel: float-free values parse back (in any context that
cannot extend a number span), list tails parse back before a `]`, dict
bodies parse back after the opening brace, dict tails parse back before
the closing brace. -/
theorem parse_dump_round : ∀ fuel : Nat,
    (∀ (v : PyValue) (rest : List Char), noFloatV v = true → depthV v ≤ fuel →
      notNumExt rest → parseVal fuel (dumpV v ++ rest) = some (v, rest)) ∧
    (∀ (vs : PyValues) (rest : List Char), noFloatL vs = true → depthL vs ≤ fuel →
      parseListTail fuel (dumpListTail vs ++ (']' :: rest)) = some (vs, rest)) ∧
    (∀ (k : String) (v : PyValue) (kvs : PyFields) (rest : List Char),
      noFloatV v = true → noFloatF kvs = true →
      1 + max (depthV v) (depthF kvs) ≤ fuel →
      parseDictFirst fuel
          ('"' :: (escapeChars k.data ++ ('"' :: (':' :: (' ' :: (dumpV v
              ++ (dumpDictTail kvs ++ (rbrace :: rest)))))))) =
        some (.dictV (.cons k v kvs), rest)) ∧
    (∀ (kvs : PyFields) (rest : List Char), noFloatF kvs = true → depthF kvs ≤ fuel →
      parseDictTail fuel (dumpDictTail kvs ++ (rbrace :: rest)) = some (kvs, rest))
  | 0 => by
    refine ⟨?_, ?_, ?_, ?_⟩
    · intro v rest _ hd _
      have := depthV_pos v
      omega
    · intro vs rest _ hd
      have : 1 ≤ depthL vs := by cases vs <;> simp [depthL]
      omega
    · intro k v kvs rest _ _ hd
      omega
    · intro kvs rest _ hd
      have : 1 ≤ depthF kvs := by cases kvs <;> simp [depthF]
      omega
  | fuel + 1 => by
    obtain ⟨ihP, ihQ, ihR, ihS⟩ := parse_dump_round fuel
    refine ⟨?_, ?_, ?_, ?_⟩
    · -- values
      intro v rest hnf hd hrest
      cases v with
      | noneV =>
        rw [show dumpV .noneV ++ rest = 'n' :: 'u' :: 'l' :: 'l' :: rest from rfl]
        rw [parseVal.eq_def]
        simp [skipWs, isWsChar]
      | boolV b =>
        cases b with
        | true =>
          rw [show dumpV (.boolV true) ++ rest = 't' :: 'r' :: 'u' :: 'e' :: rest from rfl]
          rw [parseVal.eq_def]
          simp [skipWs, isWsChar]
        | false =>
          rw [show dumpV (.boolV false) ++ rest
              = 'f' :: 'a' :: 'l' :: 's' :: 'e' :: rest from rfl]
          rw [parseVal.eq_def]
          simp [skipWs, isWsChar]
      | intV n =>
        obtain ⟨hne, hdig, -⟩ := natChars_spec n.natAbs
        by_cases hn : n < 0
        · cases h : natChars n.natAbs with
          | nil => exact absurd h hne
          | cons c t =>
            have hc : c.isDigit = true := hdig c (by rw [h]; simp)
            obtain ⟨-, -, -, -, -, -, -, -, -, -, -, -, fI⟩ := digit_facts c hc
            rw [show dumpV (.intV n) ++ rest = '-' :: (natChars n.natAbs ++ rest) by
              simp [dumpV, intChars, hn]]
            rw [parseVal.eq_def]
            have hml : ¬(('-' : Char) = lbrace) := by decide
            have htake : ¬((natChars n.natAbs ++ rest).take 8
                = ['I', 'n', 'f', 'i', 'n', 'i', 't', 'y']) := by
              rw [h]
              intro heq
              simp only [List.cons_append, List.take_succ_cons, List.cons.injEq] at heq
              exact fI heq.1
            have hpn : parseNumber ('-' :: (natChars n.natAbs ++ rest))
                = some (.intV (-((n.natAbs : Nat) : Int)), rest) := by
              rw [show parseNumber ('-' :: (natChars n.natAbs ++ rest))
                  = parseUnsignedNum true (natChars n.natAbs ++ rest) from rfl,
                parseUnsignedNum_natChars true n.natAbs rest hrest]
              simp
            have hval : -(|n|) = n := by
              rw [abs_of_neg hn]
              ring
            simp [skipWs, isWsChar, hml, htake, hpn, hval]
        · cases h : natChars n.natAbs with
          | nil => exact absurd h hne
          | cons c t =>
            have hc : c.isDigit = true := hdig c (by rw [h]; simp)
            obtain ⟨f1, f2, f3, f4, f5, f6, f7, fws, -, -, -, f12, f13⟩ :=
              digit_facts c hc
            rw [show dumpV (.intV n) ++ rest = c :: (t ++ rest) by
              simp [dumpV, intChars, hn, h]]
            rw [parseVal.eq_def]
            have hpn : parseNumber (c :: (t ++ rest))
                = some (.intV ((n.natAbs : Nat) : Int), rest) := by
              rw [show c :: (t ++ rest) = natChars n.natAbs ++ rest by rw [h]; rfl]
              exact parseNumber_natChars n.natAbs rest hrest
            have hpos : (((n.natAbs : Nat) : Int)) = n := by omega
            simp [skipWs, fws, f1, f2, f3, f4, f5, f6, f7, f12, f13, hc, hpn, hpos]
      | floatV f => exact absurd hnf (by simp [noFloatV])
      | strV s =>
        rw [show dumpV (.strV s) ++ rest
            = '"' :: (escapeChars s.data ++ '"' :: rest) by
          simp [dumpV, dumpKey]]
        rw [parseVal.eq_def]
        simp [skipWs, isWsChar, parseStr_round s.data rest]
      | listV vs =>
        cases vs with
        | nil =>
          rw [show dumpV (.listV .nil) ++ rest = '[' :: ']' :: rest from rfl]
          rw [parseVal.eq_def]
          simp [skipWs, isWsChar]
        | cons v vs =>
          simp only [depthV] at hd
          simp only [noFloatV, noFloatL, Bool.and_eq_true] at hnf
          have hmv := Nat.le_max_left (depthV v) (depthL vs)
          have hmL := Nat.le_max_right (depthV v) (depthL vs)
          obtain ⟨c, t, hh, hws, hnb⟩ := dumpV_head v hnf.1
          rw [show dumpV (.listV (.cons v vs)) ++ rest
              = '[' :: (c :: (t ++ (dumpListTail vs ++ (']' :: rest)))) by
            simp [dumpV, hh]]
          rw [parseVal.eq_def]
          have hv : parseVal fuel (c :: (t ++ (dumpListTail vs ++ (']' :: rest))))
              = some (v, dumpListTail vs ++ (']' :: rest)) := by
            rw [show c :: (t ++ (dumpListTail vs ++ (']' :: rest)))
                = dumpV v ++ (dumpListTail vs ++ (']' :: rest)) by rw [hh]; rfl]
            exact ihP v _ hnf.1 (by omega) (ndStart_listTail vs rest)
          have hvs : parseListTail fuel (dumpListTail vs ++ (']' :: rest))
              = some (vs, rest) := ihQ vs rest hnf.2 (by omega)
          have hbw : isWsChar '[' = false := by decide
          simp [skipWs, hbw, hws, hnb, hv, hvs]
      | dictV kvs =>
        cases kvs with
        | nil =>
          simp only [depthV] at hd
          cases fuel with
          | zero => omega
          | succ f =>
            rw [show dumpV (.dictV .nil) ++ rest = lbrace :: (rbrace :: rest) from rfl]
            rw [parseVal.eq_def]
            have hl1 : ¬(lbrace = 'n') := by decide
            have hl2 : ¬(lbrace = 't') := by decide
            have hl3 : ¬(lbrace = 'f') := by decide
            have hl4 : ¬(lbrace = '"') := by decide
            have hl5 : ¬(lbrace = '[') := by decide
            have hlw : isWsChar lbrace = false := by decide
            simp only [hlw, hl1, hl2, hl3, hl4, hl5]
            rw [skipWs_not_ws _ _ hlw]
            simp only [hl1, hl2, hl3, hl4, hl5, if_false, ite_false, if_pos rfl]
            rw [parseDictFirst.eq_def]
            have hrw : isWsChar rbrace = false := by decide
            simp [skipWs, hrw]
        | cons k v kvs =>
          simp only [depthV] at hd
          simp only [noFloatV, noFloatF, Bool.and_eq_true] at hnf
          have hpv := depthV_pos v
          have hmv := Nat.le_max_left (depthV v) (depthF kvs)
          rw [show dumpV (.dictV (.cons k v kvs)) ++ rest
              = lbrace :: ('"' :: (escapeChars k.data ++ ('"' :: (':' :: (' ' :: (dumpV v
                  ++ (dumpDictTail kvs ++ (rbrace :: rest)))))))) by
            simp [dumpV, dumpKey]]
          rw [parseVal.eq_def]
          have hl1 : ¬(lbrace = 'n') := by decide
          have hl2 : ¬(lbrace = 't') := by decide
          have hl3 : ¬(lbrace = 'f') := by decide
          have hl4 : ¬(lbrace = '"') := by decide
          have hl5 : ¬(lbrace = '[') := by decide
          have hlw : isWsChar lbrace = false := by decide
          have hR := ihR k v kvs rest hnf.1 hnf.2 (by omega)
          simp [skipWs, hlw, hl1, hl2, hl3, hl4, hl5, hR]
    · -- list tails
      intro vs rest hnf hd
      cases vs with
      | nil =>
        rw [show dumpListTail .nil ++ (']' :: rest) = ']' :: rest from rfl]
        rw [parseListTail.eq_def]
        simp [skipWs, isWsChar]
      | cons v vs =>
        simp only [depthL] at hd
        simp only [noFloatL, Bool.and_eq_true] at hnf
        have hpv := depthV_pos v
        have hmv := Nat.le_max_left (depthV v) (depthL vs)
        have hmL := Nat.le_max_right (depthV v) (depthL vs)
        cases fuel with
        | zero => omega
        | succ f =>
          rw [show dumpListTail (.cons v vs) ++ (']' :: rest)
              = ',' :: (' ' :: (dumpV v ++ (dumpListTail vs ++ (']' :: rest)))) by
            simp [dumpListTail]]
          rw [parseListTail.eq_def]
          have hv : parseVal (f + 1) (' ' :: (dumpV v ++ (dumpListTail vs ++ (']' :: rest))))
              = some (v, dumpListTail vs ++ (']' :: rest)) := by
            rw [parseVal_drop_ws f ' ' _ (by decide)]
            exact ihP v _ hnf.1 (by omega) (ndStart_listTail vs rest)
          have hvs : parseListTail (f + 1) (dumpListTail vs ++ (']' :: rest))
              = some (vs, rest) := ihQ vs rest hnf.2 (by omega)
          have hcw : isWsChar ',' = false := by decide
          simp [skipWs, hcw, hv, hvs]
    · -- dict bodies after the opening brace
      intro k v kvs rest hnfv hnfk hd
      have hpv := depthV_pos v
      have hmv := Nat.le_max_left (depthV v) (depthF kvs)
      have hmF := Nat.le_max_right (depthV v) (depthF kvs)
      cases fuel with
      | zero => omega
      | succ f =>
        rw [parseDictFirst.eq_def]
        have hqw : isWsChar '"' = false := by decide
        have hq1 : ¬(('"' : Char) = rbrace) := by decide
        have hclw : isWsChar ':' = false := by decide
        have hk : (⟨k.data⟩ : String) = k := rfl
        have hsb := parseStr_round k.data
            (':' :: (' ' :: (dumpV v ++ (dumpDictTail kvs ++ (rbrace :: rest)))))
        have hv : parseVal (f + 1) (' ' :: (dumpV v ++ (dumpDictTail kvs ++ (rbrace :: rest))))
            = some (v, dumpDictTail kvs ++ (rbrace :: rest)) := by
          rw [parseVal_drop_ws f ' ' _ (by decide)]
          exact ihP v _ hnfv (by omega) (ndStart_dictTail kvs rest)
        have hkvs : parseDictTail (f + 1) (dumpDictTail kvs ++ (rbrace :: rest))
            = some (kvs, rest) := ihS kvs rest hnfk (by omega)
        simp [skipWs, hqw, hq1, hclw, hk, hsb, hv, hkvs]
    · -- dict tails
      intro kvs rest hnf hd
      cases kvs with
      | nil =>
        rw [show dumpDictTail .nil ++ (rbrace :: rest) = rbrace :: rest from rfl]
        rw [parseDictTail.eq_def]
        have hrw : isWsChar rbrace = false := by decide
        simp [skipWs, hrw]
      | cons k v kvs =>
        simp only [depthF] at hd
        simp only [noFloatF, Bool.and_eq_true] at hnf
        have hpv := depthV_pos v
        have hmv := Nat.le_max_left (depthV v) (depthF kvs)
        have hmF := Nat.le_max_right (depthV v) (depthF kvs)
        cases fuel with
        | zero => omega
        | succ f =>
          rw [show dumpDictTail (.cons k v kvs) ++ (rbrace :: rest)
              = ',' :: (' ' :: ('"' :: (escapeChars k.data ++ ('"' :: (':' :: (' ' :: (dumpV v
                  ++ (dumpDictTail kvs ++ (rbrace :: rest))))))))) by
            simp [dumpDictTail, dumpKey]]
          rw [parseDictTail.eq_def]
          have hc1 : ¬((',' : Char) = rbrace) := by decide
          have hcw : isWsChar ',' = false := by decide
          have hsw : isWsChar ' ' = true := by decide
          have hqw : isWsChar '"' = false := by decide
          have hclw : isWsChar ':' = false := by decide
          have hk : (⟨k.data⟩ : String) = k := rfl
          have hsb := parseStr_round k.data
              (':' :: (' ' :: (dumpV v ++ (dumpDictTail kvs ++ (rbrace :: rest)))))
          have hv : parseVal (f + 1)
              (' ' :: (dumpV v ++ (dumpDictTail kvs ++ (rbrace :: rest))))
              = some (v, dumpDictTail kvs ++ (rbrace :: rest)) := by
            rw [parseVal_drop_ws f ' ' _ (by decide)]
            exact ihP v _ hnf.1 (by omega) (ndStart_dictTail kvs rest)
          have hkvs : parseDictTail (f + 1) (dumpDictTail kvs ++ (rbrace :: rest))
              = some (kvs, rest) := ihS kvs rest hnf.2 (by omega)
          simp [skipWs, hc1, hcw, hsw, hqw, hclw, hk, hsb, hv, hkvs]

/-- Helper: `json.loads` inverts `json.dumps` on every float-free value of
the model's domain. -/
theorem json_roundtrip (v : PyValue) (hnf : noFloatV v = true) :
    json_loads (json_dumps v) = some v := by
  have hnd : notNumExt ([] : List Char) := by
    intro c t h
    exact absurd h (by simp)
  have hp := (parse_dump_round ((dumpV v).length + 1)).1 v [] hnf
    (Nat.le_trans (depthV_le v hnf) (Nat.le_succ _)) hnd
  rw [List.append_nil] at hp
  show loadsChars (dumpV v) = some v
  simp [loadsChars, hp, skipWs]

/-- C8 counterexample: with the backend reachable, the scalar string
`"123"` does NOT pass through the cache unchanged: `set` stores it raw,
but `get` runs it through `_try_json`, whose `json.loads` succeeds and
returns the integer `123` instead of the original string. -/
theorem c8_scalar_passthrough_counterexample :
    (cache_set (CacheService.init true) true [] "k" (.strV "123") 3600).1 = true ∧
    cache_get (CacheService.init true) true
        (cache_set (CacheService.init true) true [] "k" (.strV "123") 3600).2 "k"
      = .intV 123 ∧
    (PyValue.intV 123 ≠ PyValue.strV "123") := by
  refine ⟨rfl, by decide, by decide⟩

/-- C8 (amended): with the backend reachable, structured values
(dicts/lists over `None`/bool/int/str and nested such) and integer scalars
are serialized on write and deserialized back to an equal value on read; a
string scalar is stored raw and read back through `_try_json`, so it
returns unchanged exactly when it does not itself parse as JSON (otherwise
it comes back as the parsed value); `bool` and `None` scalars are rejected
by the backend driver, so `set` fails and leaves the store untouched. -/
theorem c8_serialization_roundtrip (store : RedisStore) (key : String) (ttl : Nat) :
    (∀ kvs : PyFields, noFloatF kvs = true →
      (cache_set (CacheService.init true) true store key (.dictV kvs) ttl).1 = true ∧
      cache_get (CacheService.init true) true
          (cache_set (CacheService.init true) true store key (.dictV kvs) ttl).2 key
        = .dictV kvs) ∧
    (∀ vs : PyValues, noFloatL vs = true →
      (cache_set (CacheService.init true) true store key (.listV vs) ttl).1 = true ∧
      cache_get (CacheService.init true) true
          (cache_set (CacheService.init true) true store key (.listV vs) ttl).2 key
        = .listV vs) ∧
    (∀ n : Int,
      (cache_set (CacheService.init true) true store key (.intV n) ttl).1 = true ∧
      cache_get (CacheService.init true) true
          (cache_set (CacheService.init true) true store key (.intV n) ttl).2 key
        = .intV n) ∧
    (∀ s : String,
      (cache_set (CacheService.init true) true store key (.strV s) ttl).1 = true ∧
      cache_get (CacheService.init true) true
          (cache_set (CacheService.init true) true store key (.strV s) ttl).2 key
        = tryJson s ∧
      (json_loads s = Option.none →
        cache_get (CacheService.init true) true
            (cache_set (CacheService.init true) true store key (.strV s) ttl).2 key
          = .strV s)) ∧
    (∀ b : Bool,
      cache_set (CacheService.init true) true store key (.boolV b) ttl = (false, store)) ∧
    (cache_set (CacheService.init true) true store key .noneV ttl = (false, store)) := by
  have hfind : ∀ v : String,
      storeGet (storeSet store key v ttl) key = some v := by
    intro v
    simp [storeGet, storeSet]
  refine ⟨?_, ?_, ?_, ?_, ?_, rfl⟩
  · intro kvs hnf
    refine ⟨rfl, ?_⟩
    show (match storeGet (storeSet store key (json_dumps (.dictV kvs)) ttl) key with
          | Option.none => PyValue.noneV
          | some s => tryJson s) = PyValue.dictV kvs
    rw [hfind]
    show tryJson (json_dumps (.dictV kvs)) = .dictV kvs
    simp [tryJson, json_roundtrip (.dictV kvs) (by simp [noFloatV, hnf])]
  · intro vs hnf
    refine ⟨rfl, ?_⟩
    show (match storeGet (storeSet store key (json_dumps (.listV vs)) ttl) key with
          | Option.none => PyValue.noneV
          | some s => tryJson s) = PyValue.listV vs
    rw [hfind]
    show tryJson (json_dumps (.listV vs)) = .listV vs
    simp [tryJson, json_roundtrip (.listV vs) (by simp [noFloatV, hnf])]
  · intro n
    refine ⟨rfl, ?_⟩
    show (match storeGet (storeSet store key (⟨intChars n⟩ : String) ttl) key with
          | Option.none => PyValue.noneV
          | some s => tryJson s) = PyValue.intV n
    rw [hfind]
    show tryJson (json_dumps (.intV n)) = .intV n
    simp [tryJson, json_roundtrip (.intV n) (by simp [noFloatV])]
  · intro s
    have hget : cache_get (CacheService.init true) true
        (cache_set (CacheService.init true) true store key (.strV s) ttl).2 key
        = tryJson s := by
      show (match storeGet (storeSet store key s ttl) key with
            | Option.none => PyValue.noneV
            | some s => tryJson s) = tryJson s
      rw [hfind]
    refine ⟨rfl, hget, ?_⟩
    intro hload
    rw [hget]
    simp [tryJson, hload]
  · intro b
    rfl

/-- Witness for `c8_serialization_roundtrip`: the non-JSON string
`"hello"` and the leading-zero string `"0123"` (which Python's strict
number grammar rejects) pass through a concrete set/get unchanged, while
`"1.5"` does parse — as a float. -/
theorem c8_serialization_roundtrip_witness :
    (json_loads "hello" = Option.none ∧
      cache_get (CacheService.init true) true
          (cache_set (CacheService.init true) true [] "k" (.strV "hello") 5).2 "k"
        = .strV "hello") ∧
    (json_loads "0123" = Option.none ∧
      cache_get (CacheService.init true) true
          (cache_set (CacheService.init true) true [] "k" (.strV "0123") 5).2 "k"
        = .strV "0123") ∧
    json_loads "1.5" = some (.floatV "1.5") := by
  have h1 : json_loads "hello" = Option.none := by decide
  have h2 : json_loads "0123" = Option.none := by decide
  exact ⟨⟨h1, ((c8_serialization_roundtrip [] "k" 5).2.2.2.1 "hello").2.2 h1⟩,
    ⟨h2, ((c8_serialization_roundtrip [] "k" 5).2.2.2.1 "0123").2.2 h2⟩,
    by decide⟩

end InspectorCLI
